import Mathlib

/-!
Verification development for the BMP/PNG decoding core
(src/codec/SkCodec_libbmp.cpp and src/codec/SkCodec_libpng.cpp).

The definitions below are a shallow embedding of the source: pure helper
functions become Lean functions, the stateful pixel engines become explicit
state passing over a destination-memory model, machine integers become Nat
or Int with explicit wrap-around where the source relies on it.  Components
that live outside the two source files (SkStream, SkSwizzler, SkMaskSwizzler,
SkMasks, the SkCodecPriv byte helpers, libpng) are modelled from the
specification and marked as such in their doc comments.
-/

namespace Skia

/-- Result codes of SkCodec (SkCodec::Result). -/
inductive Result
  | success
  | incompleteInput
  | invalidConversion
  | invalidInput
  | invalidScale
  | couldNotRewind
  | unimplemented
deriving DecidableEq, Repr

/-- Destination color types reachable in this codec (kN32, kRGB_565, kAlpha_8). -/
inductive ColorType
  | n32
  | rgb565
  | alpha8
deriving DecidableEq, Repr

/-- Alpha type of an image (SkAlphaType without kIgnore). -/
inductive AlphaType
  | kOpaque
  | unpremul
  | premul
deriving DecidableEq, Repr

/-- Row order of the BMP pixel data. -/
inductive RowOrder
  | topDown
  | bottomUp
deriving DecidableEq, Repr

/-- Input format of the BMP pixel data (BitmapInputFormat). -/
inductive BitmapInputFormat
  | standard
  | bitMask
  | rle
  | unknown
deriving DecidableEq, Repr

/-- Modelled from the spec: get_byte of SkCodecPriv (not under src/) reads one
byte of a buffer; out-of-range reads return 0 and values are bytes. -/
def get_byte (buf : List Nat) (i : Nat) : Nat := buf.getD i 0 % 256

/-- Modelled from the spec: get_short of SkCodecPriv reads a little-endian
16-bit value. -/
def get_short (buf : List Nat) (i : Nat) : Nat :=
  get_byte buf i + 256 * get_byte buf (i + 1)

/-- Modelled from the spec: get_int of SkCodecPriv reads a little-endian
32-bit value. -/
def get_int (buf : List Nat) (i : Nat) : Nat :=
  get_byte buf i + 256 * get_byte buf (i + 1) +
    65536 * get_byte buf (i + 2) + 16777216 * get_byte buf (i + 3)

/-- Reinterpret a 32-bit unsigned value as a signed int32. -/
def toSigned32 (v : Nat) : Int :=
  if v < 2 ^ 31 then (v : Int) else (v : Int) - 2 ^ 32

/-- Modelled from the spec: compute_row_bytes of SkCodecPriv (not under src/),
the byte count of a row of width pixels at the given bits per pixel,
equal to the ceiling of width times bpp over 8. -/
def compute_row_bytes (width bitsPerPixel : Nat) : Nat :=
  (width * bitsPerPixel + 7) / 8

/-- SkAlign2 rounds up to a multiple of 2. -/
def align2 (n : Nat) : Nat := if n % 2 = 0 then n else n + 1

/-- SkAlign4 rounds up to a multiple of 4. -/
def align4 (n : Nat) : Nat := n + (4 - n % 4) % 4

/-- SkIsAlign2 tests divisibility by 2. -/
def isAlign2 (n : Nat) : Bool := n % 2 = 0

/-- Modelled from the spec: SkPackARGB32NoCheck of SkColorPriv (not under
src/) packs four byte channels as ARGB into a 32-bit word. -/
def SkPackARGB32NoCheck (a r g b : Nat) : Nat :=
  (a % 256) * 2 ^ 24 + (r % 256) * 2 ^ 16 + (g % 256) * 2 ^ 8 + b % 256

/-- Modelled from the spec: SkMulDiv255Round of SkColorPriv, the rounded
byte product used by premultiplication. -/
def SkMulDiv255Round (x y : Nat) : Nat :=
  let prod := (x % 256) * (y % 256) + 128
  (prod + prod / 256) / 256

/-- Modelled from the spec: SkPreMultiplyARGB packs an ARGB color after
premultiplying the color channels by alpha. -/
def SkPreMultiplyARGB (a r g b : Nat) : Nat :=
  SkPackARGB32NoCheck a (SkMulDiv255Round a r) (SkMulDiv255Round a g)
    (SkMulDiv255Round a b)

/-- Modelled from the spec: SkPixel32ToPixel16 of SkColorPriv converts a
packed 32-bit color to RGB565. -/
def SkPixel32ToPixel16 (c : Nat) : Nat :=
  let r := c / 2 ^ 16 % 256
  let g := c / 2 ^ 8 % 256
  let b := c % 256
  (r / 8) * 2 ^ 11 + (g / 4) * 2 ^ 5 + b / 8

/-- Modelled from the spec: SkPack888ToRGB16 of SkColorPriv packs byte
channels directly to RGB565. -/
def SkPack888ToRGB16 (r g b : Nat) : Nat :=
  ((r % 256) / 8) * 2 ^ 11 + ((g % 256) / 4) * 2 ^ 5 + (b % 256) / 8

/-- Destination memory model.  The field bytes maps a destination byte offset
to the word stored at that offset by the engines (pixels are stored whole at
the byte offset of their first byte).  The field written is a ghost log of
the offsets written by pixel-level writes; it lets the development speak
about destination cells that no run, absolute run or swizzled row ever
touched. -/
structure BmpDst where
  bytes : Nat → Nat
  written : List Nat

/-- Write one pixel value at a destination byte offset, logging the write. -/
def writePixel (d : BmpDst) (addr v : Nat) : BmpDst :=
  { bytes := fun a => if a = addr then v else d.bytes a,
    written := addr :: d.written }

/-- Context of the RLE engine of SkBmpCodec::decodeRLE: the destination
geometry, the decoder fields it reads, and the color table built by
createColorTable. -/
structure RLECtx where
  width : Nat
  height : Nat
  bitsPerPixel : Nat
  rowOrder : RowOrder
  colorType : ColorType
  dstRowBytes : Nat
  colorTable : Nat → Nat

/-- SkBmpCodec::setRLEPixel sets one pixel through the color table, honoring
the row order and the destination color type. -/
def setRLEPixel (c : RLECtx) (d : BmpDst) (x y index : Nat) : BmpDst :=
  let row := match c.rowOrder with
    | .bottomUp => c.height - y - 1
    | .topDown => y
  match c.colorType with
  | .rgb565 =>
      writePixel d (row * c.dstRowBytes + 2 * x)
        (SkPixel32ToPixel16 (c.colorTable index))
  | _ =>
      writePixel d (row * c.dstRowBytes + 4 * x) (c.colorTable index)

/-- SkBmpCodec::setRLE24Pixel sets one pixel from direct R, G, B bytes,
honoring the row order and the destination color type. -/
def setRLE24Pixel (c : RLECtx) (d : BmpDst) (x y red green blue : Nat) : BmpDst :=
  let row := match c.rowOrder with
    | .bottomUp => c.height - y - 1
    | .topDown => y
  match c.colorType with
  | .rgb565 =>
      writePixel d (row * c.dstRowBytes + 2 * x) (SkPack888ToRGB16 red green blue)
  | _ =>
      writePixel d (row * c.dstRowBytes + 4 * x)
        (SkPackARGB32NoCheck 255 red green blue)

/-- The while loop of the 4-bit absolute run in decodeRLE: each buffer byte
supplies a high-nibble index and, when a pixel remains, a low-nibble index.
Returns the buffer position, the cursor column and the destination. -/
def absRun4 (c : RLECtx) (buf : Nat → Nat) :
    Nat → Nat → Nat → Nat → BmpDst → Nat × Nat × BmpDst
  | 0, cur, x, _, d => (cur, x, d)
  | 1, cur, x, y, d =>
      (cur + 1, x + 1, setRLEPixel c d x y (buf cur / 16))
  | np + 2, cur, x, y, d =>
      let d1 := setRLEPixel c d x y (buf cur / 16)
      let d2 := setRLEPixel c d1 (x + 1) y (buf cur % 16)
      absRun4 c buf np (cur + 1) (x + 2) y d2

/-- The while loop of the 8-bit absolute run in decodeRLE: one index byte per
pixel. -/
def absRun8 (c : RLECtx) (buf : Nat → Nat) :
    Nat → Nat → Nat → Nat → BmpDst → Nat × Nat × BmpDst
  | 0, cur, x, _, d => (cur, x, d)
  | np + 1, cur, x, y, d =>
      absRun8 c buf np (cur + 1) (x + 1) y (setRLEPixel c d x y (buf cur))

/-- The RLE24 run fill of decodeRLE: repeat one BGR color until the cursor
reaches endX.  The first argument is fuel for the structural recursion;
callers pass endX, which bounds the remaining iterations. -/
def run24 (c : RLECtx) (red green blue y endX : Nat) :
    Nat → Nat → BmpDst → Nat × BmpDst
  | 0, x, d => (x, d)
  | n + 1, x, d =>
      if x < endX then
        run24 c red green blue y endX n (x + 1)
          (setRLE24Pixel c d x y red green blue)
      else (x, d)

/-- The RLE4 and RLE8 run fill of decodeRLE: alternate the two color-table
indices until the cursor reaches endX.  The first Nat argument after endX is
fuel for the structural recursion; callers pass endX. -/
def runIndex (c : RLECtx) (i0 i1 y endX : Nat) :
    Nat → Bool → Nat → BmpDst → Nat × BmpDst
  | 0, _, x, d => (x, d)
  | n + 1, which, x, d =>
      if x < endX then
        runIndex c i0 i1 y endX n (!which) (x + 1)
          (setRLEPixel c d x y (if which then i1 else i0))
      else (x, d)

/-- State of the opcode loop of decodeRLE: the input-buffer position, the
pixel cursor, and the destination. -/
structure RLEState where
  currByte : Nat
  x : Nat
  y : Nat
  dst : BmpDst

/-- Outcome of one iteration of the opcode loop: either the decode returns
with a result, or the loop continues in a new state. -/
inductive RLEStep
  | done (res : Result) (s : RLEState)
  | cont (s : RLEState)

/-- One iteration of the opcode loop of SkBmpCodec::decodeRLE.  The source
reads a pair (flag, task); flag 0 selects the escapes (end of line, end of
file, delta, absolute run) and a nonzero flag is a run length.  In the
24-bit absolute-run case the source switch falls through into the default
branch after writing the first pixel, so that case writes one pixel and
returns kInvalidInput; the embedding reproduces this behavior of the code. -/
def rleStepEol (s : RLEState) (cur : Nat) : RLEStep :=
  .cont { s with currByte := cur, x := 0, y := s.y + 1 }

/-- The delta escape of decodeRLE: read (dx, dy), move the cursor, and check
the moved cursor against the image bounds. -/
def rleStepDelta (c : RLECtx) (buf : Nat → Nat) (totalBytes : Nat)
    (s : RLEState) (cur : Nat) : RLEStep :=
  if totalBytes - cur < 2 then
    .done .incompleteInput { s with currByte := cur }
  else
    let dx := buf cur
    let dy := buf (cur + 1)
    let x2 := s.x + dx
    let y2 := s.y + dy
    if x2 > c.width ∨ y2 > c.height then
      .done .incompleteInput { s with currByte := cur + 2, x := x2, y := y2 }
    else .cont { s with currByte := cur + 2, x := x2, y := y2 }

/-- The absolute-run escape of decodeRLE.  In the 24-bit case the source
switch falls through into the default branch after writing the first pixel,
so that case writes one pixel and returns kInvalidInput; the embedding
reproduces this behavior of the code. -/
def rleStepAbsolute (c : RLECtx) (buf : Nat → Nat) (totalBytes : Nat)
    (s : RLEState) (task cur : Nat) : RLEStep :=
  let numPixels := task
  let rowBytes := compute_row_bytes numPixels c.bitsPerPixel
  if s.x + numPixels > c.width ∨ totalBytes - cur < align2 rowBytes then
    .done .incompleteInput { s with currByte := cur }
  else
    match c.bitsPerPixel with
    | 4 =>
        let r := absRun4 c buf numPixels cur s.x s.y s.dst
        let pad := if isAlign2 rowBytes then 0 else 1
        .cont { currByte := r.1 + pad, x := r.2.1, y := s.y, dst := r.2.2 }
    | 8 =>
        let r := absRun8 c buf numPixels cur s.x s.y s.dst
        let pad := if isAlign2 rowBytes then 0 else 1
        .cont { currByte := r.1 + pad, x := r.2.1, y := s.y, dst := r.2.2 }
    | 24 =>
        let blue := buf cur
        let green := buf (cur + 1)
        let red := buf (cur + 2)
        let d := setRLE24Pixel c s.dst s.x s.y red green blue
        .done .invalidInput { currByte := cur + 3, x := s.x + 1, y := s.y, dst := d }
    | _ => .done .invalidInput { s with currByte := cur }

/-- The run branch of decodeRLE for a nonzero first byte: fill up to the
clipped row end with one color, from the color table or from a direct BGR
triple at 24 bits per pixel. -/
def rleStepRun (c : RLECtx) (buf : Nat → Nat) (totalBytes : Nat)
    (s : RLEState) (flag task cur : Nat) : RLEStep :=
  let numPixels := flag
  let endX := min (s.x + numPixels) c.width
  if c.bitsPerPixel = 24 then
    if totalBytes - cur < 2 then
      .done .incompleteInput { s with currByte := cur }
    else
      let blue := task
      let green := buf cur
      let red := buf (cur + 1)
      let r := run24 c red green blue s.y endX endX s.x s.dst
      .cont { currByte := cur + 2, x := r.1, y := s.y, dst := r.2 }
  else
    let i0 := if c.bitsPerPixel = 4 then task / 16 else task
    let i1 := if c.bitsPerPixel = 4 then task % 16 else task
    let r := runIndex c i0 i1 s.y endX endX false s.x s.dst
    .cont { currByte := cur, x := r.1, y := s.y, dst := r.2 }

/-- One iteration of the opcode loop of SkBmpCodec::decodeRLE.  The source
reads a pair (flag, task); flag 0 selects the escapes (end of line, end of
file, delta, absolute run) and a nonzero flag is a run length. -/
def rleStep (c : RLECtx) (buf : Nat → Nat) (totalBytes : Nat) (s : RLEState) :
    RLEStep :=
  if totalBytes - s.currByte < 2 then .done .incompleteInput s
  else
    let flag := buf s.currByte
    let task := buf (s.currByte + 1)
    let cur := s.currByte + 2
    if s.y ≥ c.height ∧ (flag ≠ 0 ∨ task ≠ 1) then
      .done .incompleteInput { s with currByte := cur }
    else if flag = 0 then
      if task = 0 then rleStepEol s cur
      else if task = 1 then .done .success { s with currByte := cur }
      else if task = 2 then rleStepDelta c buf totalBytes s cur
      else rleStepAbsolute c buf totalBytes s task cur
    else rleStepRun c buf totalBytes s flag task cur

/-- The opcode loop of decodeRLE, with fuel.  Every continuing iteration
consumes at least two buffer bytes, so fuel totalBytes + 1 is enough for the
loop to reach a return of the source. -/
def rleLoop (c : RLECtx) (buf : Nat → Nat) (totalBytes : Nat) :
    Nat → RLEState → Result × RLEState
  | 0, s => (.incompleteInput, s)
  | fuel + 1, s =>
      match rleStep c buf totalBytes s with
      | .done r s2 => (r, s2)
      | .cont s2 => rleLoop c buf totalBytes fuel s2

/-- Zero-initialization of the destination buffer (the memset of decodeRLE):
every byte offset below size reads as zero afterwards.  This is a plain
store, not a pixel write, so the ghost log is unchanged. -/
def zeroFill (size : Nat) (d : BmpDst) : BmpDst :=
  { bytes := fun a => if a < size then 0 else d.bytes a, written := d.written }

/-- Body of SkBmpCodec::decodeRLE after the buffer load: zero the
destination, then run the opcode loop from the origin cursor. -/
def decodeRLEBody (c : RLECtx) (stream : List Nat) (totalBytes : Nat)
    (d : BmpDst) : Result × RLEState :=
  let buf := fun i => stream.getD i 0 % 256
  let d0 := zeroFill (c.dstRowBytes * c.height) d
  rleLoop c buf totalBytes (totalBytes + 1)
    { currByte := 0, x := 0, y := 0, dst := d0 }

/-- SkBmpCodec::decodeRLE.  The engine reads up to fRLEBytes bytes from the
stream; a short read only warns, and the kInvalidInput return for an empty
read sits in an else-if branch that a short read shadows. -/
def decodeRLE (c : RLECtx) (fRLEBytes : Nat) (stream : List Nat) (d : BmpDst) :
    Result × RLEState :=
  let totalBytes := min fRLEBytes stream.length
  if totalBytes < fRLEBytes then decodeRLEBody c stream totalBytes d
  else if totalBytes = 0 then
    (.invalidInput, { currByte := 0, x := 0, y := 0, dst := d })
  else decodeRLEBody c stream totalBytes d

/-- Destination of the state carried by a step outcome. -/
def RLEStep.dstOf : RLEStep → BmpDst
  | .done _ s => s.dst
  | .cont s => s.dst

/-- Write discipline between two destinations: the ghost log only grows, and
any offset outside the final log still holds its old byte. -/
def Preserves (d1 d2 : BmpDst) : Prop :=
  (∀ a, a ∈ d1.written → a ∈ d2.written) ∧
  (∀ a, a ∉ d2.written → d2.bytes a = d1.bytes a)

/-- An all-zero destination with an empty write log. -/
def emptyDst : BmpDst := ⟨fun _ => 0, []⟩

/-- Concrete RLE24 context: 4 by 2 image, top-down, N32, 16-byte rows. -/
def c1ctx : RLECtx := ⟨4, 2, 24, .topDown, .n32, 16, fun _ => 0⟩

/-- Concrete RLE24 opcode stream: an absolute run of 3 BGR pixels with its
padding byte, then end of file. -/
def c1stream : List Nat := [0, 3, 1, 2, 3, 4, 5, 6, 7, 8, 9, 0, 0, 1]

/-- Concrete RLE8 context: 2 by 2 image, bottom-up, N32, 8-byte rows. -/
def c7ctx : RLECtx := ⟨2, 2, 8, .bottomUp, .n32, 8, fun _ => 0⟩

/-- Concrete RLE8 context for the zero-initialization witness. -/
def c3ctx : RLECtx := ⟨2, 2, 8, .topDown, .n32, 8, fun i => i + 10⟩

/-- A destination holding nonzero garbage, with an empty write log. -/
def c3dst : BmpDst := ⟨fun _ => 7, []⟩

/-- Concrete RLE8 context for the delta-opcode witness. -/
def c8ctx : RLECtx := ⟨2, 2, 8, .bottomUp, .n32, 8, fun _ => 0⟩

/-- Concrete buffer holding a single delta opcode (0, 2, 1, 1). -/
def c8buf : Nat → Nat := fun i => [0, 2, 1, 1].getD i 0

/-- Version of the second bitmap header (BitmapHeaderType). -/
inductive BitmapHeaderType
  | infoV1
  | infoV2
  | infoV3
  | infoV4
  | infoV5
  | os2V1
  | os2VX
  | unknown
deriving DecidableEq, Repr

/-- Input bit masks handed to SkMasks::CreateMasks (SkMasks::InputMasks). -/
structure SkMasksInput where
  red : Nat
  green : Nat
  blue : Nat
  alpha : Nat
deriving DecidableEq, Repr

/-- The fields of an SkBmpCodec as set up by NewFromStream: the parsed image
info (width, height, alpha type) and the decoder members. -/
structure SkBmpCodecState where
  width : Int
  height : Int
  alphaType : AlphaType
  bitsPerPixel : Nat
  inputFormat : BitmapInputFormat
  masks : SkMasksInput
  numColors : Nat
  bytesPerColor : Nat
  fOffset : Nat
  rowOrder : RowOrder
  fRLEBytes : Nat
  isIco : Bool
deriving DecidableEq, Repr

/-- Trailing-zero count with explicit fuel (the argument halves each step,
so fuel m is always enough). -/
def tzFuel : Nat → Nat → Nat
  | 0, _ => 0
  | fuel + 1, m =>
      if m = 0 then 0
      else if m % 2 = 1 then 0
      else tzFuel fuel (m / 2) + 1

/-- Trailing-zero count of a Nat (position of its lowest set bit). -/
def tz (m : Nat) : Nat := tzFuel m m

/-- Whether the set bits of a mask form one contiguous run. -/
def contiguousMask (m : Nat) : Bool :=
  m == 0 || ((m >>> tz m) + 1) &&& (m >>> tz m) == 0

/-- Modelled from the spec: SkMasks::CreateMasks (not under src/) fails when
any mask has non-contiguous set bits, when two masks overlap, or when a mask
lies outside the sample width of 2 to the bitsPerPixel. -/
def masksValid (m : SkMasksInput) (bitsPerPixel : Nat) : Bool :=
  contiguousMask m.red && contiguousMask m.green && contiguousMask m.blue &&
  contiguousMask m.alpha &&
  m.red &&& m.green == 0 && m.red &&& m.blue == 0 && m.red &&& m.alpha == 0 &&
  m.green &&& m.blue == 0 && m.green &&& m.alpha == 0 &&
  m.blue &&& m.alpha == 0 &&
  decide (m.red < 2 ^ bitsPerPixel) && decide (m.green < 2 ^ bitsPerPixel) &&
  decide (m.blue < 2 ^ bitsPerPixel) && decide (m.alpha < 2 ^ bitsPerPixel)

/-- First part of SkBmpCodec::NewFromStream: the 14-byte file header plus the
4-byte size of the info header (or, for a BMP embedded in an ICO, only the
4-byte size, with totalBytes and offset fixed at 0). -/
structure BmpHeaderFields where
  totalBytes : Nat
  offset : Nat
  infoBytes : Nat
  rest : List Nat
deriving DecidableEq, Repr

def bmpReadHeaderFields (stream : List Nat) (isIco : Bool) :
    Option BmpHeaderFields :=
  if isIco then
    if stream.length < 4 then none
    else
      let hBuffer := stream.take 4
      let infoBytes := get_int hBuffer 0
      if infoBytes < 12 then none
      else some ⟨0, 0, infoBytes, stream.drop 4⟩
  else
    if stream.length < 18 then none
    else
      let hBuffer := stream.take 18
      let totalBytes := get_int hBuffer 2
      let offset := get_int hBuffer 10
      if offset < 14 + 12 then none
      else
        let infoBytes := get_int hBuffer 14
        if infoBytes < 12 then none
        else some ⟨totalBytes, offset, infoBytes, stream.drop 18⟩

/-- Variant selection of the info header by its size field. -/
def bmpHeaderTypeOfSize (infoBytes : Nat) : BitmapHeaderType :=
  match infoBytes with
  | 40 => .infoV1
  | 52 => .infoV2
  | 56 => .infoV3
  | 108 => .infoV4
  | 124 => .infoV5
  | 16 | 20 | 24 | 28 | 32 | 36 | 42 | 46 | 48 | 60 | 64 => .os2VX
  | _ => .unknown

/-- Fields read from the info header by NewFromStream. -/
structure BmpInfoFields where
  headerType : BitmapHeaderType
  width : Int
  height : Int
  bitsPerPixel : Nat
  compression : Nat
  numColors : Nat
  bytesPerColor : Nat
  iBuffer : List Nat
  rest : List Nat
deriving DecidableEq, Repr

/-- Second part of NewFromStream: read the info header (minus the four size
bytes already consumed) and extract the fields of the matching variant.  The
invalid-size else branch of the source is unreachable here because
bmpReadHeaderFields already rejected sizes below 12. -/
def bmpReadInfo (h : BmpHeaderFields) : Option BmpInfoFields :=
  let infoBytesRemaining := h.infoBytes - 4
  if h.rest.length < infoBytesRemaining then none
  else
    let iBuffer := h.rest.take infoBytesRemaining
    let rest := h.rest.drop infoBytesRemaining
    if h.infoBytes ≥ 16 then
      some ⟨bmpHeaderTypeOfSize h.infoBytes,
        toSigned32 (get_int iBuffer 0), toSigned32 (get_int iBuffer 4),
        get_short iBuffer 10,
        (if infoBytesRemaining ≥ 16 then get_int iBuffer 12 else 0),
        (if infoBytesRemaining ≥ 32 then get_int iBuffer 28 else 0),
        4, iBuffer, rest⟩
    else
      some ⟨.os2V1, (get_short iBuffer 0 : Nat), (get_short iBuffer 2 : Nat),
        get_short iBuffer 6, 0, 0, 3, iBuffer, rest⟩

/-- Checked dimensions and row order of the image. -/
structure BmpDims where
  width : Int
  height : Int
  rowOrder : RowOrder
deriving DecidableEq, Repr

/-- Dimension handling of NewFromStream: a negative height flips the row
order; for a BMP in an ICO the stored height is halved; then a negative
width or a dimension of 65536 or more is rejected. -/
def bmpCheckDims (width height : Int) (isIco : Bool) : Option BmpDims :=
  let rowOrder := if height < 0 then RowOrder.topDown else RowOrder.bottomUp
  let height2 := if height < 0 then -height else height
  let height3 := if isIco then height2 / 2 else height2
  if width < 0 ∨ width ≥ 65536 ∨ height3 ≥ 65536 then none
  else some ⟨width, height3, rowOrder⟩

/-- Outcome of the compression dispatch of NewFromStream. -/
structure BmpDispatch where
  bitsPerPixel : Nat
  inputFormat : BitmapInputFormat
  masks : SkMasksInput
  maskBytes : Nat
deriving DecidableEq, Repr

/-- Compression dispatch of NewFromStream: select the input format, correct
the bits per pixel for RLE, and load the bit masks (from the stream after an
InfoV1 header, from fixed info-header offsets for InfoV2 and later). -/
def bmpDispatchCompression (inf : BmpInfoFields) : Option BmpDispatch :=
  match inf.compression with
  | 0 => some ⟨inf.bitsPerPixel, .standard, ⟨0, 0, 0, 0⟩, 0⟩
  | 1 => some ⟨8, .rle, ⟨0, 0, 0, 0⟩, 0⟩
  | 2 => some ⟨4, .rle, ⟨0, 0, 0, 0⟩, 0⟩
  | 3 | 6 =>
      match inf.headerType with
      | .infoV1 =>
          if inf.rest.length < 12 then none
          else
            let mBuffer := inf.rest.take 12
            some ⟨inf.bitsPerPixel, .bitMask,
              ⟨get_int mBuffer 0, get_int mBuffer 4, get_int mBuffer 8, 0⟩, 12⟩
      | .infoV2 | .infoV3 | .infoV4 | .infoV5 =>
          some ⟨inf.bitsPerPixel, .bitMask,
            ⟨get_int inf.iBuffer 36, get_int inf.iBuffer 40,
             get_int inf.iBuffer 44, 0⟩, 0⟩
      | _ => none
  | 4 => if inf.bitsPerPixel = 24 then some ⟨24, .rle, ⟨0, 0, 0, 0⟩, 0⟩ else none
  | _ => none

/-- Remaining setup of NewFromStream after the dimension check: alpha
policy, 16-bit promotion to bit masks, the legal bits-per-pixel set, mask
validation, the RLE byte count, and the gap to the pixel data. -/
def bmpSetup (totalBytes offset infoBytes : Nat) (inf : BmpInfoFields)
    (isIco : Bool) : Option SkBmpCodecState := do
  let dc ← bmpDispatchCompression inf
  let alphaSupported := (inf.headerType = .infoV3 ∧ isIco) ∨
    inf.headerType = .infoV4 ∨ inf.headerType = .infoV5
  let alphaMask := if alphaSupported then get_int inf.iBuffer 48 else 0
  let alphaType := if alphaSupported ∧ alphaMask ≠ 0 then AlphaType.unpremul
    else AlphaType.kOpaque
  let alphaType := if isIco ∧ dc.bitsPerPixel = 32 then AlphaType.unpremul
    else alphaType
  let masks := { dc.masks with alpha := alphaMask }
  let promoted ←
    match dc.bitsPerPixel with
    | 16 =>
        if dc.inputFormat ≠ .bitMask then
          some ({ masks with red := 0x7C00, green := 0x03E0, blue := 0x001F },
            BitmapInputFormat.bitMask)
        else some (masks, dc.inputFormat)
    | 1 | 2 | 4 | 8 | 24 | 32 => some (masks, dc.inputFormat)
    | _ => none
  if masksValid promoted.1 dc.bitsPerPixel = false then none
  else if totalBytes ≤ offset ∧ promoted.2 = .rle then none
  else
    let fRLEBytes := (2 ^ 64 + totalBytes - offset) % 2 ^ 64
    let bytesRead := 14 + infoBytes + dc.maskBytes
    if ¬isIco ∧ offset < bytesRead then none
    else
      some ⟨0, 0, alphaType, dc.bitsPerPixel, promoted.2, promoted.1,
        inf.numColors, inf.bytesPerColor,
        (2 ^ 32 + offset - bytesRead) % 2 ^ 32, .bottomUp, fRLEBytes, isIco⟩

/-- SkBmpCodec::NewFromStream: parse the headers, validate, and produce the
decoder state.  The width, height and row order of the final state are the
checked dimensions; bmpSetup fills the remaining fields. -/
def SkBmpCodec_NewFromStream (stream : List Nat) (isIco : Bool) :
    Option SkBmpCodecState := do
  let h ← bmpReadHeaderFields stream isIco
  let inf ← bmpReadInfo h
  let dims ← bmpCheckDims inf.width inf.height isIco
  let su ← bmpSetup h.totalBytes h.offset h.infoBytes inf isIco
  some { su with width := dims.width, height := dims.height,
                 rowOrder := dims.rowOrder }

/-- Concrete non-ICO BMP stream with an OS2V1 info header declaring width 0,
height 1, 8 bits per pixel. -/
def c2zeroStream : List Nat :=
  [66, 77, 0, 0, 0, 0, 0, 0, 0, 0, 26, 0, 0, 0, 12, 0, 0, 0,
   0, 0, 1, 0, 0, 0, 8, 0]

/-- Concrete non-ICO BMP stream with an OS2V1 info header declaring width
65535, height 1, 8 bits per pixel. -/
def c2maxStream : List Nat :=
  [66, 77, 0, 0, 0, 0, 0, 0, 0, 0, 26, 0, 0, 0, 12, 0, 0, 0,
   255, 255, 1, 0, 0, 0, 8, 0]

/-- Concrete non-ICO BMP stream with an InfoV1 header declaring width 65536,
height 1, 8 bits per pixel, no compression. -/
def c2overStream : List Nat :=
  [66, 77, 0, 0, 0, 0, 0, 0, 0, 0, 54, 0, 0, 0, 40, 0, 0, 0,
   0, 0, 1, 0, 1, 0, 0, 0, 1, 0, 8, 0, 0, 0, 0, 0,
   0, 0, 0, 0, 0, 0, 0, 0, 0, 0, 0, 0, 0, 0, 0, 0, 0, 0, 0, 0]

/-- Image info as carried by the codecs (SkImageInfo); the profile type is
opaque to the core and only compared for equality. -/
structure SkImageInfo where
  width : Int
  height : Int
  colorType : ColorType
  alphaType : AlphaType
  profileType : Nat
deriving DecidableEq, Repr

/-- PNG color types from the IHDR chunk. -/
inductive PngColorType
  | palette
  | gray
  | grayAlpha
  | rgb
  | rgba
deriving DecidableEq, Repr

/-- PNG interlace types. -/
inductive InterlaceType
  | noInterlace
  | adam7
deriving DecidableEq, Repr

/-- Modelled from the spec: png_set_interlace_handling (libpng, not under
src/) returns the number of passes of the Adam7 scheme, up to 7. -/
def adam7Passes : Nat := 7

/-- State of an SkPngCodec relevant to scanline decoding: its parsed image
info and the IHDR color and interlace types. -/
structure SkPngCodecState where
  info : SkImageInfo
  pngColorType : PngColorType
  interlaceType : InterlaceType
deriving DecidableEq, Repr

/-- The fNumberPasses computed by initializeSwizzler: the Adam7 pass count
for an interlaced stream, else 1. -/
def SkPngCodec_numberPasses (st : SkPngCodecState) : Nat :=
  if st.interlaceType ≠ .noInterlace then adam7Passes else 1

/-- The conversion_possible check of SkCodec_libpng: same color type, same
profile type, and same alpha type or premultiplied destination from an
unpremultiplied source. -/
def png_conversion_possible (dst src : SkImageInfo) : Bool :=
  if dst.colorType ≠ src.colorType then false
  else if dst.profileType ≠ src.profileType then false
  else if dst.alphaType = src.alphaType then true
  else decide (dst.alphaType = .premul ∧ src.alphaType = .unpremul)

/-- SkPngCodec::decodePalette: build the color table from the PLTE palette
and the tRNS entries.  The tRNS count is clamped to the palette size; the
fold of (trans byte minus 255) over the tRNS entries is the bitwise-or of
32-bit two's-complement ints of the source, and the resulting
fReallyHasAlpha flag is its sign bit.  Palettes shorter than 256 entries
grow by one duplicated entry (the buggy-image workaround). -/
def SkPngCodec_decodePalette (premultiply havePLTE : Bool)
    (palette : List (Nat × Nat × Nat)) (validTRNS : Bool) (trans : List Nat) :
    Option (List Nat × Bool) :=
  if havePLTE = false then none
  else
    let numPalette := palette.length
    let numTrans0 := if validTRNS then trans.length else 0
    let numTrans := if numTrans0 > numPalette then numPalette else numTrans0
    let transLessThanFF := (List.range numTrans).foldl
      (fun acc i => acc ||| (2 ^ 32 + trans.getD i 0 % 256 - 255) % 2 ^ 32) 0
    let transPart := (List.range numTrans).map fun i =>
      let p := palette.getD i (0, 0, 0)
      if premultiply then SkPreMultiplyARGB (trans.getD i 0 % 256) p.1 p.2.1 p.2.2
      else SkPackARGB32NoCheck (trans.getD i 0 % 256) p.1 p.2.1 p.2.2
    let opaquePart := (List.range (numPalette - numTrans)).map fun j =>
      let p := palette.getD (numTrans + j) (0, 0, 0)
      SkPackARGB32NoCheck 255 p.1 p.2.1 p.2.2
    let table := transPart ++ opaquePart
    let table := if numPalette < 256 then
      table ++ [table.getD (numPalette - 1) 0] else table
    some (table, transLessThanFF.testBit 31)

/-- The fReallyHasAlpha flag after SkPngCodec::onGetPixels: initialized to
false by initializeSwizzler, possibly set by decodePalette for a paletted
stream, then or-combined with the negated per-row IsOpaque results of the
swizzler over every produced row (identically for the interlaced and the
non-interlaced loop).  The per-row results come from the external swizzler
and are a parameter. -/
def pngReallyHasAlphaAfterDecode (pngColorType : PngColorType)
    (premultiply havePLTE : Bool) (palette : List (Nat × Nat × Nat))
    (validTRNS : Bool) (trans : List Nat) (rowIsOpaque : List Bool) :
    Option Bool :=
  match pngColorType with
  | .palette =>
      match SkPngCodec_decodePalette premultiply havePLTE palette validTRNS trans with
      | none => none
      | some r => some (rowIsOpaque.foldl (fun acc op => acc || !op) r.2)
  | _ => some (rowIsOpaque.foldl (fun acc op => acc || !op) false)

/-- Whether the clamped tRNS prefix holds an entry below 255; the amended
characterization of the palette part of fReallyHasAlpha. -/
def paletteTransFlag (numPalette : Nat) (validTRNS : Bool)
    (trans : List Nat) : Bool :=
  let numTrans0 := if validTRNS then trans.length else 0
  let numTrans := if numTrans0 > numPalette then numPalette else numTrans0
  (List.range numTrans).any fun i => trans.getD i 0 % 256 < 255

/-- SkPngCodec::initializeSwizzler, reduced to its result and external
failure knobs: a libpng error, a missing PLTE for a paletted stream, or a
swizzler-creation failure. -/
def SkPngCodec_initializeSwizzler (st : SkPngCodecState)
    (requestedInfo : SkImageInfo) (pngError havePLTE : Bool)
    (palette : List (Nat × Nat × Nat)) (validTRNS : Bool) (trans : List Nat)
    (swizzlerOk : Bool) : Result :=
  if pngError then .invalidInput
  else if st.pngColorType = .palette then
    match SkPngCodec_decodePalette (requestedInfo.alphaType = .premul)
        havePLTE palette validTRNS trans with
    | none => .invalidInput
    | some _ => if swizzlerOk then .success else .unimplemented
  else if swizzlerOk then .success else .unimplemented

/-- SkPngCodec::onGetScanlineDecoder: refuse scaling, impossible
conversions, swizzler-initialization failures, and interlaced streams; on
success the scanline decoder holds the destination info. -/
def SkPngCodec_onGetScanlineDecoder (st : SkPngCodecState)
    (dstInfo : SkImageInfo) (pngError havePLTE : Bool)
    (palette : List (Nat × Nat × Nat)) (validTRNS : Bool) (trans : List Nat)
    (swizzlerOk : Bool) : Option SkImageInfo :=
  if dstInfo.width ≠ st.info.width ∨ dstInfo.height ≠ st.info.height then none
  else if png_conversion_possible dstInfo st.info = false then none
  else if SkPngCodec_initializeSwizzler st dstInfo pngError havePLTE palette
      validTRNS trans swizzlerOk ≠ .success then none
  else if SkPngCodec_numberPasses st > 1 then none
  else some dstInfo

/-- Concrete image info: 2 by 2, N32, opaque. -/
def pngInfo22 : SkImageInfo := ⟨2, 2, .n32, .kOpaque, 0⟩

/-- Concrete BMP decoder state whose pixel-data gap (7 bytes) is smaller
than its color-table size (2 colors of 4 bytes). -/
def c10state : SkBmpCodecState :=
  ⟨1, 1, .kOpaque, 8, .standard, ⟨0, 0, 0, 0⟩, 2, 4, 7, .bottomUp, 100, false⟩

/-- Concrete interlaced PNG codec state. -/
def c9state : SkPngCodecState := ⟨pngInfo22, .rgba, .adam7⟩

/-- Source row configurations of the external SkSwizzler. -/
inductive SrcConfig
  | index1
  | index2
  | index4
  | index
  | gray
  | bgr
  | bgrx
  | bgra
  | rgbx
  | rgba
  | unknownConfig
deriving DecidableEq, Repr

/-- Modelled from the spec: the per-pixel conversion of the external
SkSwizzler (not under src/).  Index configs look indices up in the color
table most-significant bits first; BGR and BGRX produce opaque pixels; BGRA
and RGBA honor premultiplication. -/
def swizzlePixel (config : SrcConfig) (ctable : List Nat)
    (alphaType : AlphaType) (srcRow : List Nat) (x : Nat) : Nat :=
  match config with
  | .index1 => ctable.getD ((get_byte srcRow (x / 8) >>> (7 - x % 8)) &&& 1) 0
  | .index2 => ctable.getD ((get_byte srcRow (x / 4) >>> (6 - 2 * (x % 4))) &&& 3) 0
  | .index4 => ctable.getD
      ((get_byte srcRow (x / 2) >>> (if x % 2 = 0 then 4 else 0)) &&& 15) 0
  | .index => ctable.getD (get_byte srcRow x) 0
  | .gray =>
      SkPackARGB32NoCheck 255 (get_byte srcRow x) (get_byte srcRow x)
        (get_byte srcRow x)
  | .bgr =>
      SkPackARGB32NoCheck 255 (get_byte srcRow (3 * x + 2))
        (get_byte srcRow (3 * x + 1)) (get_byte srcRow (3 * x))
  | .bgrx =>
      SkPackARGB32NoCheck 255 (get_byte srcRow (4 * x + 2))
        (get_byte srcRow (4 * x + 1)) (get_byte srcRow (4 * x))
  | .bgra =>
      if alphaType = .premul then
        SkPreMultiplyARGB (get_byte srcRow (4 * x + 3))
          (get_byte srcRow (4 * x + 2)) (get_byte srcRow (4 * x + 1))
          (get_byte srcRow (4 * x))
      else
        SkPackARGB32NoCheck (get_byte srcRow (4 * x + 3))
          (get_byte srcRow (4 * x + 2)) (get_byte srcRow (4 * x + 1))
          (get_byte srcRow (4 * x))
  | .rgbx =>
      SkPackARGB32NoCheck 255 (get_byte srcRow (4 * x))
        (get_byte srcRow (4 * x + 1)) (get_byte srcRow (4 * x + 2))
  | .rgba =>
      if alphaType = .premul then
        SkPreMultiplyARGB (get_byte srcRow (4 * x + 3)) (get_byte srcRow (4 * x))
          (get_byte srcRow (4 * x + 1)) (get_byte srcRow (4 * x + 2))
      else
        SkPackARGB32NoCheck (get_byte srcRow (4 * x + 3)) (get_byte srcRow (4 * x))
          (get_byte srcRow (4 * x + 1)) (get_byte srcRow (4 * x + 2))
  | .unknownConfig => 0

/-- Modelled from the spec: SkSwizzler::next writes one converted row at the
given destination row index (the swizzler seeks to dst plus row times
rowBytes). -/
def swizzleRowFrom (config : SrcConfig) (ctable : List Nat)
    (alphaType : AlphaType) (srcRow : List Nat) (row dstRowBytes width : Nat) :
    Nat → Nat → BmpDst → BmpDst
  | 0, _, d => d
  | n + 1, x, d =>
    if x < width then
      swizzleRowFrom config ctable alphaType srcRow row dstRowBytes width n
        (x + 1)
        (writePixel d (row * dstRowBytes + 4 * x)
          (swizzlePixel config ctable alphaType srcRow x))
    else d

/-- Context of the standard BMP engine (SkBmpCodec::decode). -/
structure StdCtx where
  width : Nat
  height : Nat
  bitsPerPixel : Nat
  rowOrder : RowOrder
  isIco : Bool
  dstRowBytes : Nat
deriving DecidableEq, Repr

/-- The color-row loop of SkBmpCodec::decode: read the aligned source row,
pick the destination row from the row order, and swizzle. -/
def decodeRowsFrom (c : StdCtx) (config : SrcConfig) (ctable : List Nat)
    (alphaType : AlphaType) (stream : List Nat) :
    Nat → Nat → BmpDst → Result × BmpDst
  | 0, _, d => (.success, d)
  | n + 1, y, d =>
    if y < c.height then
      let rowBytes := align4 (compute_row_bytes c.width c.bitsPerPixel)
      if stream.length < (y + 1) * rowBytes then (.incompleteInput, d)
      else
        let srcRow := (stream.drop (y * rowBytes)).take rowBytes
        let row := if c.rowOrder = .topDown then y else c.height - 1 - y
        decodeRowsFrom c config ctable alphaType stream n (y + 1)
          (swizzleRowFrom config ctable alphaType srcRow row c.dstRowBytes
            c.width c.width 0 d)
    else (.success, d)

/-- The AND bit of the ICO mask for mask row y and column x: bit 7 minus
x mod 8 of byte x div 8 of that row. -/
def andBit (c : StdCtx) (maskStream : List Nat) (y x : Nat) : Nat :=
  let rowBytes := align4 (compute_row_bytes c.width 1)
  (get_byte ((maskStream.drop (y * rowBytes)).take rowBytes) (x / 8) >>>
    (7 - x % 8)) &&& 1

/-- The inner column loop of the AND-mask pass: each destination pixel is
masked with alphaBit minus 1 in 32-bit arithmetic (all ones for bit 0, zero
for bit 1). -/
def andMaskRowFrom (srcRow : List Nat) (base width : Nat) :
    Nat → Nat → BmpDst → BmpDst
  | 0, _, d => d
  | n + 1, x, d =>
    if x < width then
      let alphaBit := (get_byte srcRow (x / 8) >>> (7 - x % 8)) &&& 1
      andMaskRowFrom srcRow base width n (x + 1)
        (writePixel d (base + 4 * x)
          (d.bytes (base + 4 * x) &&& (2 ^ 32 + alphaBit - 1) % 2 ^ 32))
    else d

/-- The AND-mask row loop of SkBmpCodec::decode for BMP in ICO: read one
4-byte-aligned 1-bit row per image row and mask the matching destination
row. -/
def andMaskFrom (c : StdCtx) (stream : List Nat) :
    Nat → Nat → BmpDst → Result × BmpDst
  | 0, _, d => (.success, d)
  | n + 1, y, d =>
    if y < c.height then
      let rowBytes := align4 (compute_row_bytes c.width 1)
      if stream.length < (y + 1) * rowBytes then (.incompleteInput, d)
      else
        let srcRow := (stream.drop (y * rowBytes)).take rowBytes
        let row := if c.rowOrder = .bottomUp then c.height - y - 1 else y
        andMaskFrom c stream n (y + 1)
          (andMaskRowFrom srcRow (row * c.dstRowBytes) c.width c.width 0 d)
    else (.success, d)

/-- Swizzler configuration of the standard engine by bits per pixel. -/
def bmpConfigOf (bitsPerPixel : Nat) (alphaType : AlphaType) : Option SrcConfig :=
  match bitsPerPixel with
  | 1 => some .index1
  | 2 => some .index2
  | 4 => some .index4
  | 8 => some .index
  | 24 => some .bgr
  | 32 => some (if alphaType = .kOpaque then SrcConfig.bgrx else SrcConfig.bgra)
  | _ => none

/-- SkBmpCodec::decode, the standard engine: swizzle the color rows, then
for BMP in ICO apply the AND mask, which continues reading the same stream
after the color rows. -/
def SkBmpCodec_decode (c : StdCtx) (ctable : List Nat) (alphaType : AlphaType)
    (stream : List Nat) (d : BmpDst) : Result × BmpDst :=
  match bmpConfigOf c.bitsPerPixel alphaType with
  | none => (.invalidInput, d)
  | some config =>
      let rowBytes := align4 (compute_row_bytes c.width c.bitsPerPixel)
      let r := decodeRowsFrom c config ctable alphaType stream c.height 0 d
      if r.1 ≠ .success then r
      else if c.isIco then
        andMaskFrom c (stream.drop (c.height * rowBytes)) c.height 0 r.2
      else (.success, r.2)

/-- Context of the BMP bit-mask engine (SkBmpCodec::decodeMask). -/
structure MaskCtx where
  width : Nat
  height : Nat
  bitsPerPixel : Nat
  rowOrder : RowOrder
  dstRowBytes : Nat
  masks : SkMasksInput
deriving DecidableEq, Repr

/-- Base-2 logarithm with explicit fuel (the argument halves each step, so
fuel n is always enough). -/
def log2Fuel : Nat → Nat → Nat
  | 0, _ => 0
  | fuel + 1, n => if n ≥ 2 then log2Fuel fuel (n / 2) + 1 else 0

/-- Base-2 logarithm of a Nat. -/
def nlog2 (n : Nat) : Nat := log2Fuel n n

/-- Modelled from the spec: per-channel extraction of the external SkMasks:
mask the sample, shift by the position of the lowest set bit, and scale the
field to 8 bits. -/
def maskChannel (m sample : Nat) : Nat :=
  ((sample &&& m) >>> tz m) * 255 / (2 ^ nlog2 ((m >>> tz m) + 1) - 1)

/-- The little-endian 16- or 32-bit source sample of pixel x of a row. -/
def maskSample (bitsPerPixel : Nat) (srcRow : List Nat) (x : Nat) : Nat :=
  if bitsPerPixel = 16 then get_short srcRow (2 * x) else get_int srcRow (4 * x)

/-- Modelled from the spec: the per-pixel conversion of the external
SkMaskSwizzler (not under src/).  A zero alpha mask means opaque; the
opaque variant writes alpha 255; the premultiplied variant premultiplies. -/
def maskPixel (m : SkMasksInput) (alphaType : AlphaType) (sample : Nat) : Nat :=
  match alphaType with
  | .kOpaque =>
      SkPackARGB32NoCheck 255 (maskChannel m.red sample)
        (maskChannel m.green sample) (maskChannel m.blue sample)
  | .unpremul =>
      SkPackARGB32NoCheck
        (if m.alpha = 0 then 255 else maskChannel m.alpha sample)
        (maskChannel m.red sample) (maskChannel m.green sample)
        (maskChannel m.blue sample)
  | .premul =>
      SkPreMultiplyARGB
        (if m.alpha = 0 then 255 else maskChannel m.alpha sample)
        (maskChannel m.red sample) (maskChannel m.green sample)
        (maskChannel m.blue sample)

/-- Modelled from the spec: a produced row is reported Transparent iff every
output alpha byte is zero. -/
def maskRowTransparent (c : MaskCtx) (alphaType : AlphaType)
    (srcRow : List Nat) : Bool :=
  (List.range c.width).all fun x =>
    maskPixel c.masks alphaType (maskSample c.bitsPerPixel srcRow x) / 2 ^ 24 = 0

/-- Modelled from the spec: SkMaskSwizzler::next writes one converted row at
the given destination row index. -/
def maskSwizzleRowFrom (c : MaskCtx) (alphaType : AlphaType)
    (srcRow : List Nat) (row : Nat) : Nat → Nat → BmpDst → BmpDst
  | 0, _, d => d
  | n + 1, x, d =>
    if x < c.width then
      maskSwizzleRowFrom c alphaType srcRow row n (x + 1)
        (writePixel d (row * c.dstRowBytes + 4 * x)
          (maskPixel c.masks alphaType (maskSample c.bitsPerPixel srcRow x)))
    else d

/-- The row loop of SkBmpCodec::decodeMask: read the aligned source row,
swizzle it at the row index given by the row order, and accumulate whether
every row was reported fully transparent. -/
def maskRowsFrom (c : MaskCtx) (alphaType : AlphaType) (stream : List Nat) :
    Nat → Nat → Bool → BmpDst → Result × Bool × BmpDst
  | 0, _, transparent, d => (.success, transparent, d)
  | n + 1, y, transparent, d =>
    if y < c.height then
      let rowBytes := align4 (compute_row_bytes c.width c.bitsPerPixel)
      if stream.length < (y + 1) * rowBytes then
        (.incompleteInput, transparent, d)
      else
        let srcRow := (stream.drop (y * rowBytes)).take rowBytes
        let row := if c.rowOrder = .bottomUp then c.height - 1 - y else y
        maskRowsFrom c alphaType stream n (y + 1)
          (transparent && maskRowTransparent c alphaType srcRow)
          (maskSwizzleRowFrom c alphaType srcRow row c.width 0 d)
    else (.success, transparent, d)

/-- SkBmpCodec::decodeMask: run the mask swizzler over every buffered row;
if every row was fully transparent, re-run every row through a second mask
swizzler configured with alpha type Opaque, overwriting the destination. -/
def SkBmpCodec_decodeMask (c : MaskCtx) (alphaType : AlphaType)
    (stream : List Nat) (d : BmpDst) : Result × BmpDst :=
  let p1 := maskRowsFrom c alphaType stream c.height 0 true d
  if p1.1 ≠ .success then (p1.1, p1.2.2)
  else if p1.2.1 then
    (.success, (maskRowsFrom c .kOpaque stream c.height 0 true p1.2.2).2.2)
  else (.success, p1.2.2)

/-- The effective color count of createColorTable: a zero or too-large
numColors falls back to 2 to the bitsPerPixel. -/
def bmpEffectiveNumColors (st : SkBmpCodecState) : Nat :=
  if st.numColors = 0 ∨ st.numColors ≥ 2 ^ st.bitsPerPixel then
    2 ^ st.bitsPerPixel
  else st.numColors

/-- SkBmpCodec::createColorTable: for at most 8 bits per pixel read
numColors entries of bytesPerColor bytes in BGR(A) order, pack them
(premultiplying for a premultiplied destination, masking the alpha byte by
the top byte of the alpha mask otherwise, or forcing 255 for opaque), and
pad the table with opaque black; then, for plain BMP, check the pixel-data
offset against the table size and skip the gap to the pixel array.  Returns
the table and the remaining stream. -/
def SkBmpCodec_createColorTable (st : SkBmpCodecState) (alphaType : AlphaType)
    (stream : List Nat) : Option (List Nat × List Nat) :=
  if st.bitsPerPixel ≤ 8 then
    let maxColors := 2 ^ st.bitsPerPixel
    let numColors := bmpEffectiveNumColors st
    let colorBytes := numColors * st.bytesPerColor
    if stream.length < colorBytes then none
    else
      let cBuffer := stream.take colorBytes
      let table := (List.range maxColors).map fun i =>
        if i < numColors then
          let blue := get_byte cBuffer (i * st.bytesPerColor)
          let green := get_byte cBuffer (i * st.bytesPerColor + 1)
          let red := get_byte cBuffer (i * st.bytesPerColor + 2)
          let alpha := if alphaType = .kOpaque then 255
            else (st.masks.alpha >>> 24) &&&
              get_byte cBuffer (i * st.bytesPerColor + 3)
          if alphaType = .premul then SkPreMultiplyARGB alpha red green blue
          else SkPackARGB32NoCheck alpha red green blue
        else SkPackARGB32NoCheck 255 0 0 0
      let rest := stream.drop colorBytes
      if st.isIco = false then
        if st.fOffset < colorBytes then none
        else if rest.length < st.fOffset - colorBytes then none
        else some (table, rest.drop (st.fOffset - colorBytes))
      else some (table, rest)
  else
    if st.isIco = false then
      if stream.length < st.fOffset then none
      else some ([], stream.drop st.fOffset)
    else some ([], stream)

/-- The conversion_possible check of SkCodec_libbmp: same profile type, N32
destination, and same alpha type or premultiplied destination from an
unpremultiplied source. -/
def bmp_conversion_possible (dst src : SkImageInfo) : Bool :=
  if dst.profileType ≠ src.profileType then false
  else
    match dst.colorType with
    | .n32 => decide (src.alphaType = dst.alphaType ∨
        (dst.alphaType = .premul ∧ src.alphaType = .unpremul))
    | _ => false

/-- The image info of a BMP decoder state (kN32 with the parsed alpha type). -/
def bmpInfoOf (st : SkBmpCodecState) : SkImageInfo :=
  ⟨st.width, st.height, .n32, st.alphaType, 0⟩

/-- SkBmpCodec::onGetPixels: rewind, check dimensions and conversion, build
the color table (which positions the stream at the pixel data), then
dispatch on the input format.  The stream argument holds the bytes that
follow the headers consumed by NewFromStream. -/
def SkBmpCodec_onGetPixels (st : SkBmpCodecState) (dstInfo : SkImageInfo)
    (dstRowBytes : Nat) (rewindOk : Bool) (stream : List Nat) (d : BmpDst) :
    Result × BmpDst :=
  if rewindOk = false then (.couldNotRewind, d)
  else if dstInfo.width ≠ st.width ∨ dstInfo.height ≠ st.height then
    (.invalidScale, d)
  else if bmp_conversion_possible dstInfo (bmpInfoOf st) = false then
    (.invalidConversion, d)
  else
    match SkBmpCodec_createColorTable st dstInfo.alphaType stream with
    | none => (.invalidInput, d)
    | some tr =>
        match st.inputFormat with
        | .bitMask =>
            SkBmpCodec_decodeMask
              ⟨dstInfo.width.toNat, dstInfo.height.toNat, st.bitsPerPixel,
               st.rowOrder, dstRowBytes, st.masks⟩ dstInfo.alphaType tr.2 d
        | .rle =>
            let r := decodeRLE
              ⟨dstInfo.width.toNat, dstInfo.height.toNat, st.bitsPerPixel,
               st.rowOrder, dstInfo.colorType, dstRowBytes,
               fun i => tr.1.getD i 0⟩ st.fRLEBytes tr.2 d
            (r.1, r.2.dst)
        | .standard =>
            SkBmpCodec_decode
              ⟨dstInfo.width.toNat, dstInfo.height.toNat, st.bitsPerPixel,
               st.rowOrder, st.isIco, dstRowBytes⟩ tr.1 dstInfo.alphaType tr.2 d
        | .unknown => (.invalidInput, d)

/-- Concrete standard-engine context: 1 by 1 ICO-embedded BMP at 32 bits per
pixel, top-down, 4-byte destination rows. -/
def c4ctx : StdCtx := ⟨1, 1, 32, .topDown, true, 4⟩

/-- Concrete stream for the ICO decode: one BGRA color row, then one AND
mask row whose single bit is 1. -/
def c4stream : List Nat := [10, 20, 30, 40, 128, 0, 0, 0]

/-- Concrete bit-mask context: 1 by 1 image at 16 bits per pixel with RGB555
masks plus an alpha mask in the top bit. -/
def c5ctx : MaskCtx := ⟨1, 1, 16, .bottomUp, 4, ⟨0x7C00, 0x03E0, 0x001F, 0x8000⟩⟩

/-! Theorems begin here; everything above is the embedding and its inputs. -/

theorem preserves_refl (d : BmpDst) : Preserves d d :=
  ⟨fun _ h => h, fun _ _ => rfl⟩

theorem preserves_trans {d1 d2 d3 : BmpDst} (h12 : Preserves d1 d2)
    (h23 : Preserves d2 d3) : Preserves d1 d3 := by
  refine ⟨fun a ha => h23.1 a (h12.1 a ha), fun a ha => ?_⟩
  have hna2 : a ∉ d2.written := fun h => ha (h23.1 a h)
  rw [h23.2 a ha, h12.2 a hna2]

theorem preserves_writePixel (d : BmpDst) (addr v : Nat) :
    Preserves d (writePixel d addr v) := by
  refine ⟨fun a ha => ?_, fun a ha => ?_⟩
  · exact List.mem_cons_of_mem _ ha
  · have hne : a ≠ addr := fun h => ha (h ▸ List.mem_cons_self _ _)
    simp [writePixel, hne]

theorem preserves_setRLEPixel (c : RLECtx) (d : BmpDst) (x y index : Nat) :
    Preserves d (setRLEPixel c d x y index) := by
  unfold setRLEPixel
  cases c.colorType <;> exact preserves_writePixel ..

theorem preserves_setRLE24Pixel (c : RLECtx) (d : BmpDst) (x y r g b : Nat) :
    Preserves d (setRLE24Pixel c d x y r g b) := by
  unfold setRLE24Pixel
  cases c.colorType <;> exact preserves_writePixel ..

theorem preserves_absRun4 (c : RLECtx) (buf : Nat → Nat) :
    ∀ np cur x y d, Preserves d (absRun4 c buf np cur x y d).2.2 := by
  intro np
  induction np using Nat.strong_induction_on with
  | _ np ih =>
    match np with
    | 0 => intro cur x y d; exact preserves_refl d
    | 1 =>
        intro cur x y d
        simp only [absRun4]
        exact preserves_setRLEPixel ..
    | np + 2 =>
        intro cur x y d
        simp only [absRun4]
        exact preserves_trans
          (preserves_trans (preserves_setRLEPixel ..) (preserves_setRLEPixel ..))
          (ih np (by omega) ..)

theorem preserves_absRun8 (c : RLECtx) (buf : Nat → Nat) :
    ∀ np cur x y d, Preserves d (absRun8 c buf np cur x y d).2.2 := by
  intro np
  induction np with
  | zero => intro cur x y d; exact preserves_refl d
  | succ np ih =>
      intro cur x y d
      simp only [absRun8]
      exact preserves_trans (preserves_setRLEPixel ..) (ih ..)

theorem preserves_run24 (c : RLECtx) (red green blue y endX : Nat) :
    ∀ n x d, Preserves d (run24 c red green blue y endX n x d).2 := by
  intro n
  induction n with
  | zero => intro x d; exact preserves_refl d
  | succ n ih =>
      intro x d
      rw [run24]
      split
      · exact preserves_trans (preserves_setRLE24Pixel ..) (ih (x + 1) _)
      · exact preserves_refl d

theorem preserves_runIndex (c : RLECtx) (i0 i1 y endX : Nat) :
    ∀ n which x d, Preserves d (runIndex c i0 i1 y endX n which x d).2 := by
  intro n
  induction n with
  | zero => intro which x d; exact preserves_refl d
  | succ n ih =>
      intro which x d
      rw [runIndex]
      split
      · exact preserves_trans (preserves_setRLEPixel ..) (ih _ (x + 1) _)
      · exact preserves_refl d

theorem preserves_rleStepDelta (c : RLECtx) (buf : Nat → Nat)
    (totalBytes : Nat) (s : RLEState) (cur : Nat) :
    Preserves s.dst (rleStepDelta c buf totalBytes s cur).dstOf := by
  unfold rleStepDelta
  dsimp only
  repeat' split
  all_goals exact preserves_refl _

theorem preserves_rleStepAbsolute (c : RLECtx) (buf : Nat → Nat)
    (totalBytes : Nat) (s : RLEState) (task cur : Nat) :
    Preserves s.dst (rleStepAbsolute c buf totalBytes s task cur).dstOf := by
  unfold rleStepAbsolute
  dsimp only
  split
  · exact preserves_refl _
  · split
    · exact preserves_absRun4 ..
    · exact preserves_absRun8 ..
    · exact preserves_setRLE24Pixel ..
    · exact preserves_refl _

theorem preserves_rleStepRun (c : RLECtx) (buf : Nat → Nat)
    (totalBytes : Nat) (s : RLEState) (flag task cur : Nat) :
    Preserves s.dst (rleStepRun c buf totalBytes s flag task cur).dstOf := by
  unfold rleStepRun
  dsimp only
  repeat' split
  all_goals
    first
      | exact preserves_refl _
      | exact preserves_run24 ..
      | exact preserves_runIndex ..

theorem preserves_rleStep (c : RLECtx) (buf : Nat → Nat) (totalBytes : Nat)
    (s : RLEState) : Preserves s.dst (rleStep c buf totalBytes s).dstOf := by
  unfold rleStep
  by_cases h1 : totalBytes - s.currByte < 2
  · rw [if_pos h1]; exact preserves_refl _
  · rw [if_neg h1]
    by_cases h2 : s.y ≥ c.height ∧ (buf s.currByte ≠ 0 ∨ buf (s.currByte + 1) ≠ 1)
    · rw [if_pos h2]; exact preserves_refl _
    · rw [if_neg h2]
      by_cases h3 : buf s.currByte = 0
      · rw [if_pos h3]
        by_cases h4 : buf (s.currByte + 1) = 0
        · rw [if_pos h4]; exact preserves_refl _
        · rw [if_neg h4]
          by_cases h5 : buf (s.currByte + 1) = 1
          · rw [if_pos h5]; exact preserves_refl _
          · rw [if_neg h5]
            by_cases h6 : buf (s.currByte + 1) = 2
            · rw [if_pos h6]; exact preserves_rleStepDelta ..
            · rw [if_neg h6]; exact preserves_rleStepAbsolute ..
      · rw [if_neg h3]; exact preserves_rleStepRun ..

theorem preserves_rleLoop (c : RLECtx) (buf : Nat → Nat) (totalBytes : Nat) :
    ∀ fuel s, Preserves s.dst (rleLoop c buf totalBytes fuel s).2.dst := by
  intro fuel
  induction fuel with
  | zero => intro s; exact preserves_refl _
  | succ fuel ih =>
      intro s
      have hstep := preserves_rleStep c buf totalBytes s
      cases h : rleStep c buf totalBytes s with
      | done r s2 =>
          rw [h] at hstep
          simp only [RLEStep.dstOf] at hstep
          simp only [rleLoop, h]
          exact hstep
      | cont s2 =>
          rw [h] at hstep
          simp only [RLEStep.dstOf] at hstep
          simp only [rleLoop, h]
          exact preserves_trans hstep (ih s2)

theorem rle_body_unwritten_zero (c : RLECtx) (stream : List Nat)
    (totalBytes : Nat) (d : BmpDst) (a : Nat)
    (hsize : a < c.dstRowBytes * c.height)
    (hnw : a ∉ (decodeRLEBody c stream totalBytes d).2.dst.written) :
    (decodeRLEBody c stream totalBytes d).2.dst.bytes a = 0 := by
  unfold decodeRLEBody at hnw ⊢
  have hp := preserves_rleLoop c (fun i => stream.getD i 0 % 256) totalBytes
    (totalBytes + 1)
    ⟨0, 0, 0, zeroFill (c.dstRowBytes * c.height) d⟩
  rw [hp.2 a hnw]
  simp [zeroFill, hsize]

/-- C1: the claim states that a 24-bit absolute run of b pixels consumes
3 times b BGR bytes plus padding, writes b pixels, and decoding continues.
On the code, the RLE24 absolute-run case of decodeRLE falls through into the
default branch (the switch case has no break), so on a well-formed stream
holding an absolute run of 3 pixels the engine writes only the first pixel
and the decode returns kInvalidInput instead of continuing to the end-of-file
opcode. -/
theorem c1_rle24_absolute_run_returns_invalid :
    (decodeRLE c1ctx 13 c1stream emptyDst).1 = Result.invalidInput ∧
    (decodeRLE c1ctx 13 c1stream emptyDst).2.dst.written = [0] ∧
    (decodeRLE c1ctx 13 c1stream emptyDst).2.dst.bytes 0 =
      SkPackARGB32NoCheck 255 3 2 1 :=
  ⟨by decide, by decide, by decide⟩

/-- C3: in the BMP RLE engine, every destination byte offset inside the
dstRowBytes times height buffer that no RLE run, absolute run or other pixel
write ever touched reads as zero after the decode, for every stream and
every initial destination, whenever the engine is entered with a positive
fRLEBytes (guaranteed at construction, since RLE mode requires
totalBytes > offset). -/
theorem c3_rle_unwritten_pixels_are_zero (c : RLECtx) (fRLEBytes : Nat)
    (stream : List Nat) (d : BmpDst) (a : Nat)
    (hpos : 0 < fRLEBytes) (hsize : a < c.dstRowBytes * c.height)
    (hnw : a ∉ (decodeRLE c fRLEBytes stream d).2.dst.written) :
    (decodeRLE c fRLEBytes stream d).2.dst.bytes a = 0 := by
  unfold decodeRLE at hnw ⊢
  dsimp only at hnw ⊢
  split_ifs at hnw ⊢ with h1 h2
  · exact rle_body_unwritten_zero c stream _ d a hsize hnw
  · have := Nat.min_le_left fRLEBytes stream.length
    omega
  · exact rle_body_unwritten_zero c stream _ d a hsize hnw

/-- Witness for C3 at a concrete context, stream and destination. -/
theorem c3_rle_unwritten_pixels_are_zero_witness :
    ((0 : Nat) < 1 ∧ (0 : Nat) < c3ctx.dstRowBytes * c3ctx.height) ∧
    (decodeRLE c3ctx 1 [] c3dst).2.dst.bytes 0 = 0 :=
  ⟨⟨by decide, by decide⟩,
   c3_rle_unwritten_pixels_are_zero c3ctx 1 [] c3dst 0 (by decide) (by decide)
     (by decide)⟩

/-- C7 counterexample: the claim states that a zero-byte read of the RLE
buffer fails with kInvalidInput.  On the code, with fRLEBytes positive a
zero-byte read satisfies the short-read branch, whose else-if shadows the
kInvalidInput return, and the opcode loop then fails with kIncompleteInput. -/
theorem c7_zero_byte_read_incomplete_not_invalid :
    (decodeRLE c7ctx 1 [] emptyDst).1 = Result.incompleteInput ∧
    (decodeRLE c7ctx 1 [] emptyDst).1 ≠ Result.invalidInput := by decide

/-- C7 amended: a short read (fewer bytes than rleByteCount but more than
zero) does not abort the decode; the engine behaves exactly as if
rleByteCount equaled the byte count obtained.  A zero-byte read (with the
positive rleByteCount the constructor guarantees) makes the decode fail
with kIncompleteInput. -/
theorem c7_short_read_continues_zero_read_incomplete :
    (∀ (c : RLECtx) (fRLEBytes : Nat) (stream : List Nat) (d : BmpDst),
      0 < stream.length → stream.length < fRLEBytes →
      decodeRLE c fRLEBytes stream d = decodeRLE c stream.length stream d) ∧
    (∀ (c : RLECtx) (fRLEBytes : Nat) (stream : List Nat) (d : BmpDst),
      0 < fRLEBytes → stream.length = 0 →
      (decodeRLE c fRLEBytes stream d).1 = Result.incompleteInput) := by
  constructor
  · intro c fR stream d hpos hlt
    unfold decodeRLE
    dsimp only
    rw [min_eq_right (Nat.le_of_lt hlt), min_self,
      if_pos hlt, if_neg (lt_irrefl _), if_neg (by omega)]
  · intro c fR stream d hpos hlen
    unfold decodeRLE
    dsimp only
    rw [hlen]
    rw [Nat.min_zero, if_pos hpos]
    unfold decodeRLEBody
    simp only [rleLoop, rleStep]
    rw [if_pos (by omega)]

/-- Witness for C7 amended at concrete inputs. -/
theorem c7_short_read_witness :
    decodeRLE c7ctx 10 [0, 1] emptyDst = decodeRLE c7ctx 2 [0, 1] emptyDst ∧
    (decodeRLE c7ctx 5 [] emptyDst).1 = Result.incompleteInput :=
  ⟨c7_short_read_continues_zero_read_incomplete.1 c7ctx 10 [0, 1] emptyDst
      (by decide) (by decide),
   c7_short_read_continues_zero_read_incomplete.2 c7ctx 5 [] emptyDst
      (by decide) (by decide)⟩

/-- C8: a delta opcode (0, 2, dx, dy) adds dx and dy to the cursor; the
decode continues when the moved cursor satisfies x at most width and y at
most height (landing exactly on the corner is legal), and returns
kIncompleteInput as soon as x exceeds width or y exceeds height. -/
theorem c8_delta_moves_cursor_and_checks_bounds (c : RLECtx)
    (buf : Nat → Nat) (totalBytes fuel : Nat) (s : RLEState)
    (hflag : buf s.currByte = 0) (htask : buf (s.currByte + 1) = 2)
    (hy : s.y < c.height) (hbytes : s.currByte + 4 ≤ totalBytes) :
    rleLoop c buf totalBytes (fuel + 1) s =
      if s.x + buf (s.currByte + 2) ≤ c.width ∧
          s.y + buf (s.currByte + 3) ≤ c.height then
        rleLoop c buf totalBytes fuel
          { s with currByte := s.currByte + 4,
                   x := s.x + buf (s.currByte + 2),
                   y := s.y + buf (s.currByte + 3) }
      else
        (Result.incompleteInput,
          { s with currByte := s.currByte + 4,
                   x := s.x + buf (s.currByte + 2),
                   y := s.y + buf (s.currByte + 3) }) := by
  have hstep : rleStep c buf totalBytes s =
      rleStepDelta c buf totalBytes s (s.currByte + 2) := by
    unfold rleStep
    rw [if_neg (by omega), if_neg (fun h => absurd h.1 (by omega)),
      if_pos hflag, if_neg (by simp [htask]), if_neg (by simp [htask]),
      if_pos htask]
  have hc4 : s.currByte + 2 + 2 = s.currByte + 4 := by omega
  have hc3 : s.currByte + 2 + 1 = s.currByte + 3 := by omega
  unfold rleStepDelta at hstep
  rw [if_neg (by omega)] at hstep
  dsimp only at hstep
  rw [hc4, hc3] at hstep
  by_cases hb : s.x + buf (s.currByte + 2) ≤ c.width ∧
      s.y + buf (s.currByte + 3) ≤ c.height
  · rw [if_pos hb]
    rw [if_neg (by omega)] at hstep
    simp only [rleLoop, hstep]
  · rw [if_neg hb]
    rw [if_pos (by omega)] at hstep
    simp only [rleLoop, hstep]

theorem bmpCheckDims_bounds (width height : Int) (isIco : Bool)
    (dm : BmpDims) (hsome : bmpCheckDims width height isIco = some dm) :
    0 ≤ dm.width ∧ dm.width < 65536 ∧ 0 ≤ dm.height ∧ dm.height < 65536 := by
  unfold bmpCheckDims at hsome
  dsimp only at hsome
  split_ifs at hsome <;> cases hsome <;> dsimp only <;>
    refine ⟨by omega, by omega, by omega, by omega⟩

/-- C2 counterexample: the claim states that every accepted stream has
strictly positive width and height.  The parser only rejects a negative
width and dimensions of 65536 or more, so this concrete stream with an
OS2V1 header declaring width 0 is accepted with width 0. -/
theorem c2_zero_width_accepted :
    SkBmpCodec_NewFromStream c2zeroStream false =
      some ⟨0, 1, .kOpaque, 8, .standard, ⟨0, 0, 0, 0⟩, 0, 3, 0, .bottomUp,
        18446744073709551590, false⟩ := by decide

/-- C2 amended: every stream the BMP header parser accepts has nonnegative
width and height, both strictly below 65536; a dimension of 65535 is
accepted and a dimension of 65536 is rejected (the rejection of 65536 also
follows from the bound).  Strict positivity does not hold: zero dimensions
are accepted. -/
theorem c2_accepted_dimension_bounds :
    (∀ (stream : List Nat) (isIco : Bool) (st : SkBmpCodecState),
      SkBmpCodec_NewFromStream stream isIco = some st →
      0 ≤ st.width ∧ st.width < 65536 ∧ 0 ≤ st.height ∧ st.height < 65536) ∧
    (SkBmpCodec_NewFromStream c2maxStream false).isSome = true ∧
    SkBmpCodec_NewFromStream c2overStream false = none := by
  refine ⟨?_, by decide, by decide⟩
  intro stream isIco st h
  unfold SkBmpCodec_NewFromStream at h
  simp only [bind, Option.bind_eq_some] at h
  obtain ⟨hf, -, ⟨inf, -, ⟨dims, hdims, ⟨su, -, hfin⟩⟩⟩⟩ := h
  cases hfin
  exact bmpCheckDims_bounds inf.width inf.height isIco dims hdims

/-- Witness for C2 amended, applied to the accepted width-65535 stream. -/
theorem c2_accepted_dimension_bounds_witness :
    0 ≤ (⟨65535, 1, .kOpaque, 8, .standard, ⟨0, 0, 0, 0⟩, 0, 3, 0, .bottomUp,
        18446744073709551590, false⟩ : SkBmpCodecState).width ∧
    (⟨65535, 1, .kOpaque, 8, .standard, ⟨0, 0, 0, 0⟩, 0, 3, 0, .bottomUp,
        18446744073709551590, false⟩ : SkBmpCodecState).width < 65536 ∧
    0 ≤ (⟨65535, 1, .kOpaque, 8, .standard, ⟨0, 0, 0, 0⟩, 0, 3, 0, .bottomUp,
        18446744073709551590, false⟩ : SkBmpCodecState).height ∧
    (⟨65535, 1, .kOpaque, 8, .standard, ⟨0, 0, 0, 0⟩, 0, 3, 0, .bottomUp,
        18446744073709551590, false⟩ : SkBmpCodecState).height < 65536 :=
  c2_accepted_dimension_bounds.1 c2maxStream false _ (by decide)

theorem foldl_or_row_flags : ∀ (rows : List Bool) (acc : Bool),
    rows.foldl (fun a op => a || !op) acc = (acc || rows.any fun op => !op) := by
  intro rows
  induction rows with
  | nil => intro acc; simp
  | cons r rs ih => intro acc; simp [ih, Bool.or_assoc]

theorem foldl_lor_testBit31 (g : Nat → Nat) : ∀ (l : List Nat) (acc : Nat),
    (l.foldl (fun a t => a ||| g t) acc).testBit 31 =
      (acc.testBit 31 || l.any fun t => (g t).testBit 31) := by
  intro l
  induction l with
  | nil => intro acc; simp
  | cons t ts ih => intro acc; simp [ih, Nat.testBit_lor, Bool.or_assoc]

theorem transByte_testBit31 (t : Nat) :
    ((2 ^ 32 + t % 256 - 255) % 2 ^ 32).testBit 31 = decide (t % 256 < 255) := by
  have h2 : t % 256 < 256 := Nat.mod_lt t (by norm_num)
  by_cases hlt : t % 256 < 255
  · have hv : (2 ^ 32 + t % 256 - 255) % 2 ^ 32 = 2 ^ 32 - 255 + t % 256 := by
      omega
    rw [hv, Nat.testBit_to_div_mod, decide_eq_decide]
    omega
  · have h255 : t % 256 = 255 := by omega
    rw [h255]
    decide

/-- C6 counterexample: the claim states that reallyHasAlpha is true iff some
produced row was non-opaque.  On the code, decodePalette sets the flag from
the tRNS entries alone; a paletted stream with a fully transparent tRNS
entry that no pixel uses yields reallyHasAlpha true although every produced
row was reported opaque. -/
theorem c6_trns_sets_flag_without_nonopaque_rows :
    pngReallyHasAlphaAfterDecode .palette false true
        [(0, 0, 0), (255, 255, 255)] true [0] [true] = some true ∧
    ([true].any fun op => !op) = false := by decide

/-- C6 amended: after a PNG decode, reallyHasAlpha is true iff some produced
row was reported non-opaque by the swizzler, or the stream is paletted and
its tRNS chunk (clamped to the palette size) holds an entry below 255; for
non-paletted streams the claimed equivalence holds as stated. -/
theorem c6_reallyHasAlpha_characterization (ct : PngColorType)
    (premultiply havePLTE : Bool) (palette : List (Nat × Nat × Nat))
    (validTRNS : Bool) (trans : List Nat) (rows : List Bool) (f : Bool)
    (h : pngReallyHasAlphaAfterDecode ct premultiply havePLTE palette
        validTRNS trans rows = some f) :
    f = ((rows.any fun op => !op) ||
      (decide (ct = .palette) && paletteTransFlag palette.length validTRNS trans)) := by
  cases ct
  case palette =>
    unfold pngReallyHasAlphaAfterDecode SkPngCodec_decodePalette at h
    by_cases hp : havePLTE = false
    · rw [if_pos hp] at h
      exact absurd h (by simp)
    · rw [if_neg hp] at h
      dsimp only at h
      cases h
      rw [foldl_or_row_flags, foldl_lor_testBit31]
      simp only [transByte_testBit31, paletteTransFlag, Nat.zero_testBit,
        Bool.false_or, decide_True, Bool.true_and]
      exact Bool.or_comm ..
  all_goals (
    unfold pngReallyHasAlphaAfterDecode at h
    cases h
    rw [foldl_or_row_flags]
    simp)

/-- Witness for C6 amended at a concrete paletted input with an opaque tRNS
entry and one non-opaque row. -/
theorem c6_reallyHasAlpha_witness :
    (true : Bool) = ((([true, false] : List Bool).any fun op => !op) ||
      (decide (PngColorType.palette = PngColorType.palette) &&
        paletteTransFlag ([(1, 2, 3), (4, 5, 6)] : List (Nat × Nat × Nat)).length
          true [255])) :=
  c6_reallyHasAlpha_characterization .palette false true [(1, 2, 3), (4, 5, 6)]
    true [255] [true, false] true (by decide)

/-- C9: for every interlaced PNG (number of Adam7 passes greater than 1),
getScanlineDecoder returns null, whatever the destination info and the
external swizzler and palette outcomes. -/
theorem c9_interlaced_scanline_decoder_refused (st : SkPngCodecState)
    (dstInfo : SkImageInfo) (pngError havePLTE : Bool)
    (palette : List (Nat × Nat × Nat)) (validTRNS : Bool) (trans : List Nat)
    (swizzlerOk : Bool) (h : SkPngCodec_numberPasses st > 1) :
    SkPngCodec_onGetScanlineDecoder st dstInfo pngError havePLTE palette
      validTRNS trans swizzlerOk = none := by
  unfold SkPngCodec_onGetScanlineDecoder
  split_ifs with h1 h2 h3 h4 <;> first | rfl | omega

/-- C10: for a non-ICO BMP with at most 8 bits per pixel whose pixel-data
offset (minus the header bytes already consumed) is smaller than the
color-table size numColors times bytesPerColor (numColors after the
zero-or-too-large fallback of createColorTable), getPixels fails with
kInvalidInput before any pixel engine runs and the destination is returned
untouched, whatever the stream contents. -/
theorem c10_offset_inside_color_table_invalid (st : SkBmpCodecState)
    (dstInfo : SkImageInfo) (dstRowBytes : Nat) (stream : List Nat)
    (d : BmpDst) (hico : st.isIco = false) (hbpp : st.bitsPerPixel ≤ 8)
    (hw : dstInfo.width = st.width) (hh : dstInfo.height = st.height)
    (hconv : bmp_conversion_possible dstInfo (bmpInfoOf st) = true)
    (hoff : st.fOffset < bmpEffectiveNumColors st * st.bytesPerColor) :
    SkBmpCodec_onGetPixels st dstInfo dstRowBytes true stream d =
      (Result.invalidInput, d) := by
  unfold SkBmpCodec_onGetPixels
  rw [if_neg (by simp), if_neg (by simp [hw, hh]), if_neg (by simp [hconv])]
  have hct : SkBmpCodec_createColorTable st dstInfo.alphaType stream = none := by
    unfold SkBmpCodec_createColorTable
    rw [if_pos hbpp]
    dsimp only
    by_cases hs : stream.length < bmpEffectiveNumColors st * st.bytesPerColor
    · rw [if_pos hs]
    · rw [if_neg hs, if_pos hico, if_pos hoff]
  rw [hct]

/-- Witness for C10 at a concrete decoder state with gap 7 and an 8-byte
color table. -/
theorem c10_offset_witness :
    c10state.isIco = false ∧
    SkBmpCodec_onGetPixels c10state ⟨1, 1, .n32, .kOpaque, 0⟩ 8 true
      [1, 2, 3, 4, 5, 6, 7, 8, 9, 10] emptyDst = (Result.invalidInput, emptyDst) :=
  ⟨rfl, c10_offset_inside_color_table_invalid c10state ⟨1, 1, .n32, .kOpaque, 0⟩
    8 [1, 2, 3, 4, 5, 6, 7, 8, 9, 10] emptyDst rfl (by decide) rfl rfl
    (by decide) (by decide)⟩

/-- Witness for C9 at a concrete interlaced codec state. -/
theorem c9_interlaced_witness :
    SkPngCodec_onGetScanlineDecoder c9state pngInfo22 false true [] false []
      true = none :=
  c9_interlaced_scanline_decoder_refused c9state pngInfo22 false true [] false
    [] true (by decide)

theorem rowAddr_inj (RB r r' x x' : Nat) (hx : 4 * x < RB) (hx' : 4 * x' < RB)
    (h : r * RB + 4 * x = r' * RB + 4 * x') : r = r' ∧ x = x' := by
  have hRB : 0 < RB := by omega
  have e1 : (RB * r + 4 * x) / RB = r + 4 * x / RB := Nat.mul_add_div hRB r (4 * x)
  have e2 : (RB * r' + 4 * x') / RB = r' + 4 * x' / RB :=
    Nat.mul_add_div hRB r' (4 * x')
  rw [Nat.div_eq_of_lt hx] at e1
  rw [Nat.div_eq_of_lt hx'] at e2
  rw [Nat.mul_comm RB r] at e1
  rw [Nat.mul_comm RB r'] at e2
  rw [h] at e1
  have hr : r = r' := by omega
  subst hr
  have h4 : 4 * x = 4 * x' := Nat.add_left_cancel h
  exact ⟨rfl, by omega⟩

theorem getD_lt_of_forall (l : List Nat) (B : Nat) (hB : 0 < B)
    (h : ∀ v ∈ l, v < B) : ∀ i, l.getD i 0 < B := by
  induction l with
  | nil => intro i; simpa [List.getD]
  | cons a t ih =>
      intro i
      cases i with
      | zero => exact h a (by simp)
      | succ j =>
          rw [List.getD_cons_succ]
          exact ih (fun v hv => h v (by simp [hv])) j

theorem SkPackARGB32NoCheck_lt (a r g b : Nat) :
    SkPackARGB32NoCheck a r g b < 2 ^ 32 := by
  unfold SkPackARGB32NoCheck
  omega

theorem SkPreMultiplyARGB_lt (a r g b : Nat) :
    SkPreMultiplyARGB a r g b < 2 ^ 32 :=
  SkPackARGB32NoCheck_lt ..

theorem swizzlePixel_lt (config : SrcConfig) (ctable : List Nat)
    (alphaType : AlphaType) (srcRow : List Nat) (x : Nat)
    (htab : ∀ v ∈ ctable, v < 2 ^ 32) :
    swizzlePixel config ctable alphaType srcRow x < 2 ^ 32 := by
  have hget := getD_lt_of_forall ctable (2 ^ 32) (by norm_num) htab
  cases config
  case index1 => exact hget _
  case index2 => exact hget _
  case index4 => exact hget _
  case index => exact hget _
  case gray => exact SkPackARGB32NoCheck_lt ..
  case bgr => exact SkPackARGB32NoCheck_lt ..
  case bgrx => exact SkPackARGB32NoCheck_lt ..
  case rgbx => exact SkPackARGB32NoCheck_lt ..
  case bgra =>
    simp only [swizzlePixel]
    split
    · exact SkPreMultiplyARGB_lt ..
    · exact SkPackARGB32NoCheck_lt ..
  case rgba =>
    simp only [swizzlePixel]
    split
    · exact SkPreMultiplyARGB_lt ..
    · exact SkPackARGB32NoCheck_lt ..
  case unknownConfig => simp [swizzlePixel]

theorem swizzleRowFrom_bounds (config : SrcConfig) (ctable : List Nat)
    (alphaType : AlphaType) (srcRow : List Nat) (row dstRowBytes width : Nat)
    (htab : ∀ v ∈ ctable, v < 2 ^ 32) :
    ∀ n x0 d, (∀ a, d.bytes a < 2 ^ 32) →
    ∀ a, (swizzleRowFrom config ctable alphaType srcRow row dstRowBytes width
      n x0 d).bytes a < 2 ^ 32 := by
  intro n
  induction n with
  | zero => intro x0 d hd a; exact hd a
  | succ n ih =>
      intro x0 d hd a
      rw [swizzleRowFrom]
      split
      · refine ih (x0 + 1) _ ?_ a
        intro a2
        unfold writePixel
        dsimp only
        split
        · exact swizzlePixel_lt config ctable alphaType srcRow x0 htab
        · exact hd a2
      · exact hd a

theorem decodeRowsFrom_bounds (c : StdCtx) (config : SrcConfig)
    (ctable : List Nat) (alphaType : AlphaType) (stream : List Nat)
    (htab : ∀ v ∈ ctable, v < 2 ^ 32) :
    ∀ n y0 d, (∀ a, d.bytes a < 2 ^ 32) →
    ∀ a, (decodeRowsFrom c config ctable alphaType stream n y0 d).2.bytes a <
      2 ^ 32 := by
  intro n
  induction n with
  | zero => intro y0 d hd a; exact hd a
  | succ n ih =>
      intro y0 d hd a
      rw [decodeRowsFrom]
      dsimp only
      split
      · split
        · exact hd a
        · exact ih (y0 + 1) _
            (fun a2 => swizzleRowFrom_bounds config ctable alphaType _ _
              c.dstRowBytes c.width htab c.width 0 d hd a2) a
      · exact hd a

theorem decodeRowsFrom_success (c : StdCtx) (config : SrcConfig)
    (ctable : List Nat) (alphaType : AlphaType) (stream : List Nat)
    (hlen : c.height * align4 (compute_row_bytes c.width c.bitsPerPixel) ≤
      stream.length) :
    ∀ n y0 d, c.height ≤ y0 + n →
    (decodeRowsFrom c config ctable alphaType stream n y0 d).1 =
      Result.success := by
  intro n
  induction n with
  | zero => intro y0 d hle; rfl
  | succ n ih =>
      intro y0 d hle
      rw [decodeRowsFrom]
      by_cases hy : y0 < c.height
      · rw [if_pos hy]
        have hrow : (y0 + 1) * align4 (compute_row_bytes c.width c.bitsPerPixel) ≤
            stream.length := by
          calc (y0 + 1) * align4 (compute_row_bytes c.width c.bitsPerPixel) ≤
              c.height * align4 (compute_row_bytes c.width c.bitsPerPixel) :=
                Nat.mul_le_mul_right _ (by omega)
            _ ≤ stream.length := hlen
        rw [if_neg (by omega)]
        exact ih (y0 + 1) _ (by omega)
      · rw [if_neg hy]

theorem andMaskRowFrom_frame (srcRow : List Nat) (base width : Nat) :
    ∀ n x0 d a,
    (∀ x, x0 ≤ x → x < width → a ≠ base + 4 * x) →
    (andMaskRowFrom srcRow base width n x0 d).bytes a = d.bytes a := by
  intro n
  induction n with
  | zero => intro x0 d a hout; rfl
  | succ n ih =>
      intro x0 d a hout
      rw [andMaskRowFrom]
      dsimp only
      split
      · rw [ih (x0 + 1) _ a (fun x h1 h2 => hout x (by omega) h2)]
        unfold writePixel
        dsimp only
        rw [if_neg (hout x0 (by omega) (by assumption))]
      · rfl

theorem andMaskRowFrom_value (srcRow : List Nat) (base width : Nat) :
    ∀ n x0 d x, width ≤ x0 + n → x0 ≤ x → x < width →
    (andMaskRowFrom srcRow base width n x0 d).bytes (base + 4 * x) =
      d.bytes (base + 4 * x) &&&
        (2 ^ 32 + ((get_byte srcRow (x / 8) >>> (7 - x % 8)) &&& 1) - 1) %
          2 ^ 32 := by
  intro n
  induction n with
  | zero => intro x0 d x hle hx1 hx2; omega
  | succ n ih =>
      intro x0 d x hle hx1 hx2
      rw [andMaskRowFrom, if_pos (by omega)]
      dsimp only
      by_cases hx : x = x0
      · subst hx
        rw [andMaskRowFrom_frame srcRow base width n (x + 1) _ _
          (fun x2 h1 h2 => by omega)]
        unfold writePixel
        dsimp only
        rw [if_pos rfl]
      · rw [ih (x0 + 1) _ x (by omega) (by omega) hx2]
        unfold writePixel
        dsimp only
        rw [if_neg (by omega)]

theorem andMaskFrom_success (c : StdCtx) (stream : List Nat)
    (hlen : c.height * align4 (compute_row_bytes c.width 1) ≤ stream.length) :
    ∀ n y0 d, c.height ≤ y0 + n →
    (andMaskFrom c stream n y0 d).1 = Result.success := by
  intro n
  induction n with
  | zero => intro y0 d hle; rfl
  | succ n ih =>
      intro y0 d hle
      rw [andMaskFrom]
      by_cases hy : y0 < c.height
      · rw [if_pos hy]
        have hrow : (y0 + 1) * align4 (compute_row_bytes c.width 1) ≤
            stream.length := by
          calc (y0 + 1) * align4 (compute_row_bytes c.width 1) ≤
              c.height * align4 (compute_row_bytes c.width 1) :=
                Nat.mul_le_mul_right _ (by omega)
            _ ≤ stream.length := hlen
        rw [if_neg (by omega)]
        exact ih (y0 + 1) _ (by omega)
      · rw [if_neg hy]

theorem bmpAndRowIdx_inj (c : StdCtx) (y y' : Nat) (hy : y < c.height)
    (hy' : y' < c.height) (hne : y ≠ y') :
    (if c.rowOrder = .bottomUp then c.height - y - 1 else y) ≠
      (if c.rowOrder = .bottomUp then c.height - y' - 1 else y') := by
  split <;> omega

theorem andMaskFrom_frame (c : StdCtx) (stream : List Nat) :
    ∀ n y0 d a,
    (∀ y, y0 ≤ y → y < c.height → ∀ x, x < c.width →
      a ≠ (if c.rowOrder = .bottomUp then c.height - y - 1 else y) *
        c.dstRowBytes + 4 * x) →
    (andMaskFrom c stream n y0 d).2.bytes a = d.bytes a := by
  intro n
  induction n with
  | zero => intro y0 d a hout; rfl
  | succ n ih =>
      intro y0 d a hout
      rw [andMaskFrom]
      dsimp only
      by_cases hy : y0 < c.height
      · rw [if_pos hy]
        split
        · rfl
        · rw [ih (y0 + 1) _ a
            (fun y h1 h2 x hx => hout y (by omega) h2 x hx)]
          exact andMaskRowFrom_frame _ _ c.width c.width 0 d a
            (fun x h1 h2 => hout y0 (by omega) hy x h2)
      · rw [if_neg hy]

theorem andMaskFrom_value (c : StdCtx) (stream : List Nat)
    (hstride : 4 * c.width ≤ c.dstRowBytes)
    (hlen : c.height * align4 (compute_row_bytes c.width 1) ≤ stream.length) :
    ∀ n y0 d y x, c.height ≤ y0 + n → y0 ≤ y → y < c.height → x < c.width →
    (andMaskFrom c stream n y0 d).2.bytes
        ((if c.rowOrder = .bottomUp then c.height - y - 1 else y) *
          c.dstRowBytes + 4 * x) =
      d.bytes ((if c.rowOrder = .bottomUp then c.height - y - 1 else y) *
          c.dstRowBytes + 4 * x) &&&
        (2 ^ 32 + andBit c stream y x - 1) % 2 ^ 32 := by
  intro n
  induction n with
  | zero => intro y0 d y x hle hy1 hy2 hx; omega
  | succ n ih =>
      intro y0 d y x hle hy1 hy2 hx
      have hx4 : 4 * x < c.dstRowBytes := by omega
      rw [andMaskFrom, if_pos (by omega)]
      have hrow : (y0 + 1) * align4 (compute_row_bytes c.width 1) ≤
          stream.length := by
        calc (y0 + 1) * align4 (compute_row_bytes c.width 1) ≤
            c.height * align4 (compute_row_bytes c.width 1) :=
              Nat.mul_le_mul_right _ (by omega)
          _ ≤ stream.length := hlen
      rw [if_neg (by omega)]
      dsimp only
      by_cases hy : y = y0
      · subst hy
        rw [andMaskFrom_frame c stream n (y + 1) _ _ ?hout]
        case hout =>
          intro y' h1 h2 x' hx' heq
          rcases rowAddr_inj c.dstRowBytes _ _ x x' hx4 (by omega) heq with ⟨hr, -⟩
          exact absurd hr (bmpAndRowIdx_inj c y y' hy2 h2 (by omega))
        exact andMaskRowFrom_value _ _ c.width c.width 0 d x (by omega)
          (by omega) hx
      · rw [ih (y0 + 1) _ y x (by omega) (by omega) hy2 hx]
        rw [andMaskRowFrom_frame _ _ c.width c.width 0 d _ ?hout2]
        case hout2 =>
          intro x' h1 hx' heq
          rcases rowAddr_inj c.dstRowBytes _ _ x x' hx4 (by omega) heq with ⟨hr, -⟩
          exact absurd hr (bmpAndRowIdx_inj c y y0 hy2 (by omega) hy)

/-- C4: for every ICO-embedded BMP decoded by the standard engine (with
enough stream bytes for the color rows and the AND mask), the decode
succeeds and every destination pixel whose AND-mask bit is 1 holds zero in
all four bytes, while every pixel whose bit is 0 is exactly what the color
pass produced at that address.  The hypotheses ask for a destination stride
of at least 4 bytes per pixel and 32-bit-bounded initial destination words
and color-table entries, as the real buffers satisfy. -/
theorem c4_ico_and_mask_applied (c : StdCtx) (config : SrcConfig)
    (ctable : List Nat) (alphaType : AlphaType) (stream : List Nat)
    (d : BmpDst) (hico : c.isIco = true)
    (hconf : bmpConfigOf c.bitsPerPixel alphaType = some config)
    (hstride : 4 * c.width ≤ c.dstRowBytes)
    (hd : ∀ a, d.bytes a < 2 ^ 32) (htab : ∀ v ∈ ctable, v < 2 ^ 32)
    (hlen : c.height * align4 (compute_row_bytes c.width c.bitsPerPixel) +
      c.height * align4 (compute_row_bytes c.width 1) ≤ stream.length) :
    (SkBmpCodec_decode c ctable alphaType stream d).1 = Result.success ∧
    ∀ y, y < c.height → ∀ x, x < c.width →
      (SkBmpCodec_decode c ctable alphaType stream d).2.bytes
          ((if c.rowOrder = .bottomUp then c.height - y - 1 else y) *
            c.dstRowBytes + 4 * x) =
        if andBit c
            (stream.drop
              (c.height * align4 (compute_row_bytes c.width c.bitsPerPixel)))
            y x = 1 then 0
        else (decodeRowsFrom c config ctable alphaType stream c.height 0 d).2.bytes
          ((if c.rowOrder = .bottomUp then c.height - y - 1 else y) *
            c.dstRowBytes + 4 * x) := by
  have hlen1 : c.height * align4 (compute_row_bytes c.width c.bitsPerPixel) ≤
      stream.length := by omega
  have hres : (decodeRowsFrom c config ctable alphaType stream c.height 0 d).1 =
      Result.success :=
    decodeRowsFrom_success c config ctable alphaType stream hlen1 c.height 0 d
      (by omega)
  have hmasklen : c.height * align4 (compute_row_bytes c.width 1) ≤
      (stream.drop
        (c.height * align4 (compute_row_bytes c.width c.bitsPerPixel))).length := by
    rw [List.length_drop]
    omega
  unfold SkBmpCodec_decode
  rw [hconf]
  dsimp only
  rw [if_neg (by simp [hres]), if_pos hico]
  constructor
  · exact andMaskFrom_success c _ hmasklen c.height 0 _ (by omega)
  · intro y hy x hx
    rw [andMaskFrom_value c _ hstride hmasklen c.height 0 _ y x (by omega)
      (by omega) hy hx]
    have hbound : (decodeRowsFrom c config ctable alphaType stream c.height 0 d).2.bytes
        ((if c.rowOrder = .bottomUp then c.height - y - 1 else y) *
          c.dstRowBytes + 4 * x) < 2 ^ 32 :=
      decodeRowsFrom_bounds c config ctable alphaType stream htab c.height 0 d
        hd _
    have hbit : andBit c
        (stream.drop
          (c.height * align4 (compute_row_bytes c.width c.bitsPerPixel)))
        y x = 0 ∨
        andBit c
          (stream.drop
            (c.height * align4 (compute_row_bytes c.width c.bitsPerPixel)))
          y x = 1 := by
      unfold andBit
      dsimp only
      rw [Nat.and_one_is_mod]
      omega
    rcases hbit with hb | hb
    · rw [hb]
      have hne : ¬((0 : Nat) = 1) := by omega
      rw [if_neg hne]
      have hm : (2 ^ 32 + 0 - 1) % 2 ^ 32 = 2 ^ 32 - 1 := by norm_num
      rw [hm, Nat.and_pow_two_sub_one_eq_mod, Nat.mod_eq_of_lt hbound]
    · rw [hb]
      rw [if_pos rfl]
      have hm : (2 ^ 32 + 1 - 1) % 2 ^ 32 = 0 := by norm_num
      rw [hm, Nat.and_zero]

/-- Witness for C4 at a concrete 1 by 1 ICO decode whose single AND bit
is 1. -/
theorem c4_ico_and_mask_witness :
    (SkBmpCodec_decode c4ctx [] .unpremul c4stream emptyDst).1 =
      Result.success ∧
    ∀ y, y < c4ctx.height → ∀ x, x < c4ctx.width →
      (SkBmpCodec_decode c4ctx [] .unpremul c4stream emptyDst).2.bytes
          ((if c4ctx.rowOrder = .bottomUp then c4ctx.height - y - 1 else y) *
            c4ctx.dstRowBytes + 4 * x) =
        if andBit c4ctx
            (c4stream.drop
              (c4ctx.height *
                align4 (compute_row_bytes c4ctx.width c4ctx.bitsPerPixel)))
            y x = 1 then 0
        else (decodeRowsFrom c4ctx .bgra [] .unpremul c4stream c4ctx.height 0 emptyDst).2.bytes
          ((if c4ctx.rowOrder = .bottomUp then c4ctx.height - y - 1 else y) *
            c4ctx.dstRowBytes + 4 * x) :=
  c4_ico_and_mask_applied c4ctx .bgra [] .unpremul c4stream emptyDst rfl
    (by decide) (by decide) (fun a => by norm_num [emptyDst]) (by simp)
    (by decide)

theorem maskRowIdx_inj (c : MaskCtx) (y y' : Nat) (hy : y < c.height)
    (hy' : y' < c.height) (hne : y ≠ y') :
    (if c.rowOrder = .bottomUp then c.height - 1 - y else y) ≠
      (if c.rowOrder = .bottomUp then c.height - 1 - y' else y') := by
  split <;> omega

theorem maskSwizzleRowFrom_frame (c : MaskCtx) (alphaType : AlphaType)
    (srcRow : List Nat) (row : Nat) :
    ∀ n x0 d a,
    (∀ x, x0 ≤ x → x < c.width → a ≠ row * c.dstRowBytes + 4 * x) →
    (maskSwizzleRowFrom c alphaType srcRow row n x0 d).bytes a = d.bytes a := by
  intro n
  induction n with
  | zero => intro x0 d a hout; rfl
  | succ n ih =>
      intro x0 d a hout
      rw [maskSwizzleRowFrom]
      split
      · rw [ih (x0 + 1) _ a (fun x h1 h2 => hout x (by omega) h2)]
        unfold writePixel
        dsimp only
        rw [if_neg (hout x0 (by omega) (by assumption))]
      · rfl

theorem maskSwizzleRowFrom_value (c : MaskCtx) (alphaType : AlphaType)
    (srcRow : List Nat) (row : Nat) :
    ∀ n x0 d x, c.width ≤ x0 + n → x0 ≤ x → x < c.width →
    (maskSwizzleRowFrom c alphaType srcRow row n x0 d).bytes
        (row * c.dstRowBytes + 4 * x) =
      maskPixel c.masks alphaType (maskSample c.bitsPerPixel srcRow x) := by
  intro n
  induction n with
  | zero => intro x0 d x hle hx1 hx2; omega
  | succ n ih =>
      intro x0 d x hle hx1 hx2
      rw [maskSwizzleRowFrom, if_pos (by omega)]
      by_cases hx : x = x0
      · subst hx
        rw [maskSwizzleRowFrom_frame c alphaType srcRow row n (x + 1) _ _
          (fun x2 h1 h2 => by omega)]
        unfold writePixel
        dsimp only
        rw [if_pos rfl]
      · exact ih (x0 + 1) _ x (by omega) (by omega) hx2

theorem maskRowsFrom_success (c : MaskCtx) (alphaType : AlphaType)
    (stream : List Nat)
    (hlen : c.height * align4 (compute_row_bytes c.width c.bitsPerPixel) ≤
      stream.length) :
    ∀ n y0 t d, c.height ≤ y0 + n →
    (maskRowsFrom c alphaType stream n y0 t d).1 = Result.success := by
  intro n
  induction n with
  | zero => intro y0 t d hle; rfl
  | succ n ih =>
      intro y0 t d hle
      rw [maskRowsFrom]
      by_cases hy : y0 < c.height
      · rw [if_pos hy]
        have hrow : (y0 + 1) *
            align4 (compute_row_bytes c.width c.bitsPerPixel) ≤
            stream.length := by
          calc (y0 + 1) * align4 (compute_row_bytes c.width c.bitsPerPixel) ≤
              c.height * align4 (compute_row_bytes c.width c.bitsPerPixel) :=
                Nat.mul_le_mul_right _ (by omega)
            _ ≤ stream.length := hlen
        rw [if_neg (by omega)]
        exact ih (y0 + 1) _ _ (by omega)
      · rw [if_neg hy]

theorem maskRowsFrom_frame (c : MaskCtx) (alphaType : AlphaType)
    (stream : List Nat) :
    ∀ n y0 t d a,
    (∀ y, y0 ≤ y → y < c.height → ∀ x, x < c.width →
      a ≠ (if c.rowOrder = .bottomUp then c.height - 1 - y else y) *
        c.dstRowBytes + 4 * x) →
    (maskRowsFrom c alphaType stream n y0 t d).2.2.bytes a = d.bytes a := by
  intro n
  induction n with
  | zero => intro y0 t d a hout; rfl
  | succ n ih =>
      intro y0 t d a hout
      rw [maskRowsFrom]
      dsimp only
      by_cases hy : y0 < c.height
      · rw [if_pos hy]
        split
        · rfl
        · rw [ih (y0 + 1) _ _ a
            (fun y h1 h2 x hx => hout y (by omega) h2 x hx)]
          exact maskSwizzleRowFrom_frame c alphaType _ _ c.width 0 d a
            (fun x h1 h2 => hout y0 (by omega) hy x h2)
      · rw [if_neg hy]

theorem maskRowsFrom_value (c : MaskCtx) (alphaType : AlphaType)
    (stream : List Nat) (hstride : 4 * c.width ≤ c.dstRowBytes)
    (hlen : c.height * align4 (compute_row_bytes c.width c.bitsPerPixel) ≤
      stream.length) :
    ∀ n y0 t d y x, c.height ≤ y0 + n → y0 ≤ y → y < c.height → x < c.width →
    (maskRowsFrom c alphaType stream n y0 t d).2.2.bytes
        ((if c.rowOrder = .bottomUp then c.height - 1 - y else y) *
          c.dstRowBytes + 4 * x) =
      maskPixel c.masks alphaType
        (maskSample c.bitsPerPixel
          ((stream.drop
            (y * align4 (compute_row_bytes c.width c.bitsPerPixel))).take
            (align4 (compute_row_bytes c.width c.bitsPerPixel))) x) := by
  intro n
  induction n with
  | zero => intro y0 t d y x hle hy1 hy2 hx; omega
  | succ n ih =>
      intro y0 t d y x hle hy1 hy2 hx
      have hx4 : 4 * x < c.dstRowBytes := by omega
      rw [maskRowsFrom, if_pos (by omega)]
      have hrow : (y0 + 1) * align4 (compute_row_bytes c.width c.bitsPerPixel) ≤
          stream.length := by
        calc (y0 + 1) * align4 (compute_row_bytes c.width c.bitsPerPixel) ≤
            c.height * align4 (compute_row_bytes c.width c.bitsPerPixel) :=
              Nat.mul_le_mul_right _ (by omega)
          _ ≤ stream.length := hlen
      rw [if_neg (by omega)]
      dsimp only
      by_cases hy : y = y0
      · subst hy
        rw [maskRowsFrom_frame c alphaType stream n (y + 1) _ _ _ ?hout]
        case hout =>
          intro y' h1 h2 x' hx' heq
          rcases rowAddr_inj c.dstRowBytes _ _ x x' hx4 (by omega) heq with
            ⟨hr, -⟩
          exact absurd hr (maskRowIdx_inj c y y' hy2 h2 (by omega))
        exact maskSwizzleRowFrom_value c alphaType _ _ c.width 0 d x (by omega)
          (by omega) hx
      · rw [ih (y0 + 1) _ _ y x (by omega) (by omega) hy2 hx]

/-- C5: when every row of a BMP bit-mask decode is reported fully
transparent, the engine re-runs every buffered row through a second mask
swizzler with alpha type Opaque, and the resulting destination bytes (and
the result code) are identical to decoding the same stream with the
destination declared Opaque from the start. -/
theorem c5_transparent_repass_equals_opaque_decode (c : MaskCtx)
    (alphaType : AlphaType) (stream : List Nat) (d : BmpDst)
    (hstride : 4 * c.width ≤ c.dstRowBytes)
    (hlen : c.height * align4 (compute_row_bytes c.width c.bitsPerPixel) ≤
      stream.length)
    (htr : (maskRowsFrom c alphaType stream c.height 0 true d).2.1 = true) :
    (SkBmpCodec_decodeMask c alphaType stream d).1 =
      (SkBmpCodec_decodeMask c .kOpaque stream d).1 ∧
    ∀ a, (SkBmpCodec_decodeMask c alphaType stream d).2.bytes a =
      (SkBmpCodec_decodeMask c .kOpaque stream d).2.bytes a := by
  have hs1 : (maskRowsFrom c alphaType stream c.height 0 true d).1 = Result.success :=
    maskRowsFrom_success c alphaType stream hlen c.height 0 true d (by omega)
  have hsO : (maskRowsFrom c .kOpaque stream c.height 0 true d).1 = Result.success :=
    maskRowsFrom_success c .kOpaque stream hlen c.height 0 true d (by omega)
  have hL : SkBmpCodec_decodeMask c alphaType stream d =
      (Result.success, (maskRowsFrom c .kOpaque stream c.height 0 true
        (maskRowsFrom c alphaType stream c.height 0 true d).2.2).2.2) := by
    unfold SkBmpCodec_decodeMask
    dsimp only
    rw [if_neg (fun h => h hs1), if_pos htr]
  rw [hL]
  by_cases hO : (maskRowsFrom c .kOpaque stream c.height 0 true d).2.1 = true
  · have hR : SkBmpCodec_decodeMask c .kOpaque stream d =
        (Result.success, (maskRowsFrom c .kOpaque stream c.height 0 true
          (maskRowsFrom c .kOpaque stream c.height 0 true d).2.2).2.2) := by
      unfold SkBmpCodec_decodeMask
      dsimp only
      rw [if_neg (fun h => h hsO), if_pos hO]
    rw [hR]
    refine ⟨rfl, fun a => ?_⟩
    by_cases hin : ∃ y, y < c.height ∧ ∃ x, x < c.width ∧
        a = (if c.rowOrder = .bottomUp then c.height - 1 - y else y) *
          c.dstRowBytes + 4 * x
    · obtain ⟨y, hy, x, hx, rfl⟩ := hin
      dsimp only
      rw [maskRowsFrom_value c .kOpaque stream hstride hlen c.height 0 true _
        y x (by omega) (by omega) hy hx]
      rw [maskRowsFrom_value c .kOpaque stream hstride hlen c.height 0 true _
        y x (by omega) (by omega) hy hx]
    · have hfr : ∀ y, 0 ≤ y → y < c.height → ∀ x, x < c.width →
          a ≠ (if c.rowOrder = .bottomUp then c.height - 1 - y else y) *
            c.dstRowBytes + 4 * x :=
        fun y h1 h2 x hx heq => hin ⟨y, h2, x, hx, heq⟩
      dsimp only
      rw [maskRowsFrom_frame c .kOpaque stream c.height 0 true _ a hfr]
      rw [maskRowsFrom_frame c .kOpaque stream c.height 0 true _ a hfr]
      rw [maskRowsFrom_frame c alphaType stream c.height 0 true d a hfr]
      rw [maskRowsFrom_frame c .kOpaque stream c.height 0 true d a hfr]
  · have hR : SkBmpCodec_decodeMask c .kOpaque stream d =
        (Result.success, (maskRowsFrom c .kOpaque stream c.height 0 true d).2.2) := by
      unfold SkBmpCodec_decodeMask
      dsimp only
      rw [if_neg (fun h => h hsO), if_neg hO]
    rw [hR]
    refine ⟨rfl, fun a => ?_⟩
    by_cases hin : ∃ y, y < c.height ∧ ∃ x, x < c.width ∧
        a = (if c.rowOrder = .bottomUp then c.height - 1 - y else y) *
          c.dstRowBytes + 4 * x
    · obtain ⟨y, hy, x, hx, rfl⟩ := hin
      dsimp only
      rw [maskRowsFrom_value c .kOpaque stream hstride hlen c.height 0 true _
        y x (by omega) (by omega) hy hx]
      rw [maskRowsFrom_value c .kOpaque stream hstride hlen c.height 0 true d
        y x (by omega) (by omega) hy hx]
    · have hfr : ∀ y, 0 ≤ y → y < c.height → ∀ x, x < c.width →
          a ≠ (if c.rowOrder = .bottomUp then c.height - 1 - y else y) *
            c.dstRowBytes + 4 * x :=
        fun y h1 h2 x hx heq => hin ⟨y, h2, x, hx, heq⟩
      dsimp only
      rw [maskRowsFrom_frame c .kOpaque stream c.height 0 true _ a hfr]
      rw [maskRowsFrom_frame c alphaType stream c.height 0 true d a hfr]
      rw [maskRowsFrom_frame c .kOpaque stream c.height 0 true d a hfr]

/-- Witness for C5 at a concrete 1 by 1 bit-mask decode whose single source
pixel has alpha zero. -/
theorem c5_transparent_repass_witness :
    (SkBmpCodec_decodeMask c5ctx .unpremul [0, 0, 0, 0] emptyDst).1 =
      (SkBmpCodec_decodeMask c5ctx .kOpaque [0, 0, 0, 0] emptyDst).1 ∧
    ∀ a, (SkBmpCodec_decodeMask c5ctx .unpremul [0, 0, 0, 0] emptyDst).2.bytes a =
      (SkBmpCodec_decodeMask c5ctx .kOpaque [0, 0, 0, 0] emptyDst).2.bytes a :=
  c5_transparent_repass_equals_opaque_decode c5ctx .unpremul [0, 0, 0, 0]
    emptyDst (by decide) (by decide) (by decide)

/-- Witness for C8: a concrete delta (0, 2, 1, 1) from the origin inside a
2 by 2 image. -/
theorem c8_delta_witness :
    rleLoop c8ctx c8buf 4 1 ⟨0, 0, 0, emptyDst⟩ =
      if (0 : Nat) + c8buf 2 ≤ c8ctx.width ∧ (0 : Nat) + c8buf 3 ≤ c8ctx.height
      then rleLoop c8ctx c8buf 4 0 ⟨0 + 4, 0 + c8buf 2, 0 + c8buf 3, emptyDst⟩
      else (Result.incompleteInput,
        ⟨0 + 4, 0 + c8buf 2, 0 + c8buf 3, emptyDst⟩) :=
  c8_delta_moves_cursor_and_checks_bounds c8ctx c8buf 4 0 ⟨0, 0, 0, emptyDst⟩
    (by decide) (by decide) (by decide) (by decide)

end Skia
